import Mathlib

/-!
Image resize / quantize pipeline of `ImageDisplay_C++_cross_platform/src/Main.cpp`

A shallow embedding of the pixel pipeline of `Main.cpp`:

* `CalculateKernel` (lines 91-113): the 3x3 neighbourhood average;
* `QuantizePixel` (lines 116-136): the nearest-threshold quantizer of one byte;
* the resampling loop of `MyFrame::MyFrame` (lines 171-185);
* the threshold construction and the quantization pass of `MyFrame::MyFrame`
  (lines 189-249);
* the loader `readImageData` (lines 288-342), with `exit(1)` as `Except.error 1`;
* the program on the machine (`MyFrame`, `OnInit`): 32-bit `int` arithmetic with
  wrap-around, the unchecked `malloc` and the stack arrays, with the runs that
  leave defined behaviour as `Outcome.undefined`.

Conventions of the embedding.

* An `unsigned char *` buffer is a function `Nat → Nat` from byte offset to the
  byte stored there; a store `p[i] = x` is `Function.update p i _`, and a store
  of an `int` into an `unsigned char` keeps the value modulo 256 (`toUChar`).
* An `int *` table is a function `Nat → Int`.
* The loops are given twice.  `newIndex`, `resampleLoop`, `quantizePass`,
  `numBucketsOf` and `frameData` compute in unbounded integers; they are what
  the program computes as long as `3 * newWidth * newHeight < 2^31` and
  `channelBits ≤ 30`.  `newIndexInt`, `resampleRun`, `quantizeRun`, `MyFrame`
  and `OnInit` follow the 32-bit `int` of the machine (`wrapInt`), the size
  `malloc` is asked for and the bounds of the buffer it returns; the two
  agree below `2^31` (`resampleRun_eq`, `MyFrame_raster`).
* `double` arithmetic that is exact on the values that occur (division by the
  power of two 512 or 256, products and sums of small integers with such
  quotients) is done in `ℚ`.  The only inexact floating point operation of the
  program, `exp (i * (log 256 / numBuckets))` truncated to `int`, is a
  parameter `expEdge` of the table construction; `idealExpEdge` is its value in
  exact real arithmetic.
-/

namespace ImageDisplay

/-! ## Buffers -/

/-- An `unsigned char *` buffer: the byte stored at every offset. -/
abbrev Buffer := Nat → Nat

/-- An `int *` table: the integer stored at every index. -/
abbrev IntTable := Nat → Int

/-- Conversion of an `int` to `unsigned char`: the value modulo 256. -/
def toUChar (x : Int) : Nat := (x % 256).toNat

/-! ## `QuantizePixel` (Main.cpp 116-136) -/

/-- The `for (int i = 0; i < numBuckets-1; i++)` loop of `QuantizePixel`, started
at index `i` with `k` iterations left; the value is the `int` that the function
assigns to `data[pixelIndex]` (before its conversion to `unsigned char`).

* `origVal >= intervals[i] && origVal <= intervals[i+1]` selects the pair;
* `origVal <= (intervals[i]+intervals[i+1]) / 2` (C division, truncating)
  picks `intervals[i]`, otherwise `intervals[i+1]`; both branches return;
* when the loop runs out, the value is `intervals[numBuckets-1]`. -/
def quantizeLoop (origVal : Int) (intervals : IntTable) (numBuckets : Nat) :
    Nat → Nat → Int
  | _, 0 => intervals (numBuckets - 1)
  | i, k + 1 =>
    if intervals i ≤ origVal ∧ origVal ≤ intervals (i + 1) then
      if origVal ≤ Int.tdiv (intervals i + intervals (i + 1)) 2 then
        intervals i
      else
        intervals (i + 1)
    else
      quantizeLoop origVal intervals numBuckets (i + 1) k

/-- The `int` that `QuantizePixel` assigns for the byte `origVal`: the loop runs
over `i = 0 .. numBuckets-2`. -/
def quantizeValue (origVal : Nat) (intervals : IntTable) (numBuckets : Nat) : Int :=
  quantizeLoop (origVal : Int) intervals numBuckets 0 (numBuckets - 1)

/-- `QuantizePixel(data, pixelIndex, intervals, numBuckets)`: reads
`origVal = data[pixelIndex]` and stores the selected threshold back into
`data[pixelIndex]`. -/
def QuantizePixel (data : Buffer) (pixelIndex : Nat) (intervals : IntTable)
    (numBuckets : Nat) : Buffer :=
  Function.update data pixelIndex
    (toUChar (quantizeValue (data pixelIndex) intervals numBuckets))

/-! ## `CalculateKernel` (Main.cpp 91-113) -/

/-- The locals `int totalSum[3]` and `int numCells` of `CalculateKernel`. -/
structure KernelAcc where
  totalSum0 : Int
  totalSum1 : Int
  totalSum2 : Int
  numCells : Int
  deriving DecidableEq, Repr

/-- The entry `totalSum[c]`. -/
def KernelAcc.totalSum (acc : KernelAcc) : Nat → Int
  | 0 => acc.totalSum0
  | 1 => acc.totalSum1
  | _ => acc.totalSum2

/-- The body of the two offset loops of `CalculateKernel` for the offset `(a, b)`:
an out-of-bounds cell is skipped (`continue`), an in-bounds cell adds its three
bytes at `pixelIndex = curRow*width*3 + curCol*3` to `totalSum` and increments
`numCells`. -/
def kernelCell (image : Buffer) (height width row col a b : Int) (acc : KernelAcc) :
    KernelAcc :=
  let curRow := row + a
  let curCol := col + b
  if curRow < 0 ∨ curRow ≥ height ∨ curCol < 0 ∨ curCol ≥ width then
    acc
  else
    let pixelIndex := curRow * width * 3 + curCol * 3
    { totalSum0 := acc.totalSum0 + (image (pixelIndex + 0).toNat : Int)
      totalSum1 := acc.totalSum1 + (image (pixelIndex + 1).toNat : Int)
      totalSum2 := acc.totalSum2 + (image (pixelIndex + 2).toNat : Int)
      numCells := acc.numCells + 1 }

/-- The values taken by `a` and by `b` in `for (int a = -1; a <= 1; a++)`. -/
def kernelOffsets : List Int := [-1, 0, 1]

/-- The state of `totalSum` and `numCells` after the two offset loops. -/
def kernelSums (image : Buffer) (height width row col : Int) : KernelAcc :=
  kernelOffsets.foldl
    (fun acc a =>
      kernelOffsets.foldl (fun acc b => kernelCell image height width row col a b acc) acc)
    { totalSum0 := 0, totalSum1 := 0, totalSum2 := 0, numCells := 0 }

/-- The byte stored in `outputCellRGB[c]`: `totalSum[c] /= numCells` (C division)
followed by the store into an `unsigned char`. -/
def kernelRGB (image : Buffer) (height width row col : Int) (c : Nat) : Nat :=
  let acc := kernelSums image height width row col
  toUChar (Int.tdiv (acc.totalSum c) acc.numCells)

/-- `CalculateKernel(image, height, width, row, col, &output[outIndex])`: the three
stores `outputCellRGB[c] = totalSum[c]` for `c = 0, 1, 2`. -/
def CalculateKernel (image : Buffer) (height width row col : Int) (output : Buffer)
    (outIndex : Nat) : Buffer :=
  Function.update
    (Function.update
      (Function.update output outIndex (kernelRGB image height width row col 0))
      (outIndex + 1) (kernelRGB image height width row col 1))
    (outIndex + 2) (kernelRGB image height width row col 2)

/-! ## The resampling loop of `MyFrame::MyFrame` (Main.cpp 153-185) -/

/-- The constant `int ORIGINAL_WIDTH = 512`. -/
def ORIGINAL_WIDTH : Nat := 512

/-- The constant `int ORIGINAL_HEIGHT = 512`. -/
def ORIGINAL_HEIGHT : Nat := 512

/-- Conversion of a `double` to `int`: truncation toward zero. -/
def truncToInt (q : ℚ) : Int := Int.tdiv q.num (q.den : Int)

/-- The factor `newHeight / (double) ORIGINAL_HEIGHT`. -/
def newRowScale (newHeight : Nat) : ℚ := (newHeight : ℚ) / (ORIGINAL_HEIGHT : ℚ)

/-- The factor `newWidth / (double) ORIGINAL_WIDTH`. -/
def newColScale (newWidth : Nat) : ℚ := (newWidth : ℚ) / (ORIGINAL_WIDTH : ℚ)

/-- The destination row `int newRow = row * newRowRatio`. -/
def newRow (newHeight row : Nat) : Nat :=
  (truncToInt ((row : ℚ) * newRowScale newHeight)).toNat

/-- The destination column `int newCol = col * newColRatio`. -/
def newCol (newWidth col : Nat) : Nat :=
  (truncToInt ((col : ℚ) * newColScale newWidth)).toNat

/-- The offset `int newIndex = newRow*newWidth*3 + newCol*3` in unbounded
arithmetic: the value of the 32-bit `int` as long as
`3 * newWidth * newHeight < 2^31` (`newIndexInt_eq`); `newIndexInt` is the
machine's value in general. -/
def newIndex (newWidth newHeight row col : Nat) : Nat :=
  newRow newHeight row * newWidth * 3 + newCol newWidth col * 3

/-- The body of the resampling loop for the source pixel `(row, col)`. -/
def resampleStep (inData : Buffer) (newWidth newHeight : Nat) (resizedData : Buffer)
    (row col : Nat) : Buffer :=
  CalculateKernel inData (ORIGINAL_HEIGHT : Int) (ORIGINAL_WIDTH : Int) (row : Int) (col : Int)
    resizedData (newIndex newWidth newHeight row col)

/-- The resampling loop: `row` over `0 .. ORIGINAL_HEIGHT-1`, inside it `col` over
`0 .. ORIGINAL_WIDTH-1`; `resizedData` is the content of the freshly allocated
destination buffer.  In unbounded arithmetic; `resampleRun` is the loop on the
machine, with the same result as long as `3 * newWidth * newHeight < 2^31` and
`malloc` provides the buffer (`resampleRun_eq`). -/
def resampleLoop (inData : Buffer) (newWidth newHeight : Nat) (resizedData : Buffer) :
    Buffer :=
  (List.range ORIGINAL_HEIGHT).foldl
    (fun buf row =>
      (List.range ORIGINAL_WIDTH).foldl
        (fun buf col => resampleStep inData newWidth newHeight buf row col) buf)
    resizedData

/-- A destination pixel `(r, c)` is written by the resampling loop when some source
pixel is projected onto it. -/
def writtenBy (newWidth newHeight r c : Nat) : Prop :=
  ∃ row, row < ORIGINAL_HEIGHT ∧ ∃ col, col < ORIGINAL_WIDTH ∧
    newRow newHeight row = r ∧ newCol newWidth col = c

/-! ## Threshold construction of `MyFrame::MyFrame` (Main.cpp 189-239) -/

/-- The count `int numBuckets = (1<<channelBits)` in unbounded arithmetic: the
value of the 32-bit `int` for `channelBits` in `0..30` (`numBucketsInt_eq`);
`numBucketsInt` is the machine's value in general. -/
def numBucketsOf (channelBits : Nat) : Nat := 1 <<< channelBits

/-- The constant `int originalBitSize = (1<<8)`. -/
def originalBitSize : Nat := 1 <<< 8

/-- The step `double bitsPerBucket = originalBitSize / (double)numBuckets`. -/
def bitsPerBucket (numBuckets : Nat) : ℚ := (originalBitSize : ℚ) / (numBuckets : ℚ)

/-- One iteration of the uniform loop: `intervals[i] = (int)bucketVal;
bucketVal += bitsPerBucket`. -/
def uniformStep (numBuckets : Nat) (st : IntTable × ℚ) (i : Nat) : IntTable × ℚ :=
  (Function.update st.1 i (truncToInt st.2), st.2 + bitsPerBucket numBuckets)

/-- The uniform policy (`mode == -1`): the loop over `i = 0 .. numBuckets-1`,
started with `bucketVal = 0` on the uninitialised array `intervals`. -/
def uniformIntervals (numBuckets : Nat) (intervals : IntTable) : IntTable :=
  ((List.range numBuckets).foldl (uniformStep numBuckets) (intervals, 0)).1

/-- The value of `(int) exp(i * (log(256) / numBuckets))` in exact real arithmetic,
for `i ≤ numBuckets`: the greatest integer `k` with `k ^ numBuckets ≤ 256 ^ i`. -/
def idealExpEdge (numBuckets i : Nat) : Int :=
  (Nat.findGreatest (fun k => k ^ numBuckets ≤ 256 ^ i) 256 : Nat)

/-- What the table construction needs from the truncated exponentials
`expEdge i = (int) exp(i * d)`, `d = log(256) / numBuckets`: the first one is at
least 1, they do not decrease for `i = 1 .. numBuckets`, and the last one is at
most 256. -/
def ExpEdgeOk (expEdge : Nat → Int) (numBuckets : Nat) : Prop :=
  1 ≤ expEdge 1 ∧ (∀ i, i < numBuckets → 1 ≤ i → expEdge i ≤ expEdge (i + 1)) ∧
    expEdge numBuckets ≤ 256

instance (expEdge : Nat → Int) (numBuckets : Nat) : Decidable (ExpEdgeOk expEdge numBuckets) := by
  unfold ExpEdgeOk
  infer_instance

/-- The expression `ceil(((double) x) * (m / 256.0))` stored into an `int`. -/
def scaleCeil (x m : Int) : Int := Int.ceil ((x : ℚ) * ((m : ℚ) / 256))

/-- One iteration of the first pivot loop: `lb[i] = exp(i * d);
slb[i] = ceil(lb[i] * (mode / 256.0))`, with `mode` already inverted. -/
def pivotStep1 (expEdge : Nat → Int) (mode : Int) (st : IntTable × IntTable) (i : Nat) :
    IntTable × IntTable :=
  let lb := Function.update st.1 i (expEdge i)
  let slb := Function.update st.2 i (scaleCeil (lb i) mode)
  (lb, slb)

/-- The arrays `lb` and `slb` after `lb[0] = 0; slb[0] = 0` and the first pivot
loop over `i = 1 .. numBuckets`.  The local arrays start as all zero: every
entry that is read later is written first. -/
def pivotLoop1 (expEdge : Nat → Int) (numBuckets : Nat) (mode : Int) : IntTable × IntTable :=
  (List.range' 1 numBuckets).foldl (pivotStep1 expEdge mode)
    (Function.update (fun _ => 0) 0 0, Function.update (fun _ => 0) 0 0)

/-- The arrays `rlb`, `srlb` and `intervals` of the second pivot loop. -/
structure PivotState where
  rlb : IntTable
  srlb : IntTable
  intervals : IntTable

/-- One iteration of the second pivot loop: `rlb[i] = lb[numBuckets-i];
srlb[i] = ceil(rlb[i] * ((256-mode) / 256.0));
intervals[i] = (slb[i] - srlb[i]) - shift`. -/
def pivotStep2 (lb slb : IntTable) (numBuckets : Nat) (mode shift : Int) (st : PivotState)
    (i : Nat) : PivotState :=
  let rlb := Function.update st.rlb i (lb (numBuckets - i))
  let srlb := Function.update st.srlb i (scaleCeil (rlb i) (256 - mode))
  { rlb := rlb, srlb := srlb,
    intervals := Function.update st.intervals i ((slb i - srlb i) - shift) }

/-- The pivot-weighted policy (`mode != -1`), lines 208-232; `expEdge i` is the
value of `(int) exp(i * d)` and `intervals` the uninitialised array. -/
def pivotIntervals (expEdge : Nat → Int) (numBuckets : Nat) (mode : Int)
    (intervals : IntTable) : IntTable :=
  let mode := 255 - mode
  let lb := (pivotLoop1 expEdge numBuckets mode).1
  let slb := (pivotLoop1 expEdge numBuckets mode).2
  let rlb : IntTable := Function.update (fun _ => 0) 0 (lb numBuckets)
  let srlb : IntTable := Function.update (fun _ => 0) 0 (scaleCeil (rlb 0) (256 - mode))
  let shift := slb 0 - srlb 0
  let intervals := Function.update intervals 0 (slb 0 - srlb 0 - shift)
  ((List.range' 1 numBuckets).foldl (pivotStep2 lb slb numBuckets mode shift)
    { rlb := rlb, srlb := srlb, intervals := intervals }).intervals

/-- The table built for `(numBuckets, mode)`: uniform when `mode == -1`, otherwise
pivot-weighted. -/
def buildIntervals (expEdge : Nat → Nat → Int) (numBuckets : Nat) (mode : Int)
    (intervals : IntTable) : IntTable :=
  if mode = -1 then uniformIntervals numBuckets intervals
  else pivotIntervals (expEdge numBuckets) numBuckets mode intervals

/-! ## The quantization pass of `MyFrame::MyFrame` (Main.cpp 241-248) -/

/-- The body of the pass for the pixel `(row, col)`: `QuantizePixel` on the three
bytes at `newIndex = row*newWidth*3 + col*3`. -/
def quantizeCell (newWidth : Nat) (intervals : IntTable) (numBuckets : Nat) (data : Buffer)
    (row col : Nat) : Buffer :=
  (List.range 3).foldl
    (fun data c => QuantizePixel data (row * newWidth * 3 + col * 3 + c) intervals numBuckets)
    data

/-- The pass over `row = 0 .. newHeight-1`, `col = 0 .. newWidth-1`. -/
def quantizePass (resizedData : Buffer) (newWidth newHeight : Nat) (intervals : IntTable)
    (numBuckets : Nat) : Buffer :=
  (List.range newHeight).foldl
    (fun data row =>
      (List.range newWidth).foldl
        (fun data col => quantizeCell newWidth intervals numBuckets data row col) data)
    resizedData

/-- The quantization stage (lines 189-249): skipped when `channelBits == 8`,
otherwise the table is built and the pass is run. -/
def quantizeStage (expEdge : Nat → Nat → Int) (resizedData : Buffer)
    (newWidth newHeight channelBits : Nat) (mode : Int) (intervals : IntTable) : Buffer :=
  if channelBits ≠ 8 then
    quantizePass resizedData newWidth newHeight
      (buildIntervals expEdge (numBucketsOf channelBits) mode intervals)
      (numBucketsOf channelBits)
  else
    resizedData

/-- The buffer handed to `inImage.SetData`: the resampling loop on the freshly
allocated `resizedData`, followed by the quantization stage. -/
def frameData (expEdge : Nat → Nat → Int) (inData : Buffer)
    (newWidth newHeight channelBits : Nat) (mode : Int) (resizedData : Buffer)
    (intervals : IntTable) : Buffer :=
  quantizeStage expEdge (resampleLoop inData newWidth newHeight resizedData)
    newWidth newHeight channelBits mode intervals

/-- A buffer transformation that replaces every byte by some iterate of the byte
map `q` applied to it (the number of applications may depend on the offset). -/
def IsIterated (q : Nat → Nat) (f : Buffer → Buffer) : Prop :=
  ∃ k : Nat → Nat, ∀ (d : Buffer) (j : Nat), f d j = q^[k j] (d j)

/-- The byte-to-byte map of the quantizer for `(channelBits, mode)`: the table
construction followed by `QuantizePixel` on the byte `v`. -/
def quantizeByte (expEdge : Nat → Nat → Int) (channelBits : Nat) (mode : Int)
    (intervals : IntTable) (v : Nat) : Nat :=
  toUChar (quantizeValue v
    (buildIntervals expEdge (numBucketsOf channelBits) mode intervals)
    (numBucketsOf channelBits))

/-! ## `readImageData` (Main.cpp 288-342) -/

/-- An open `ifstream`: the bytes of the file, the read position, and whether the
stream is still good (no read has run past the end of the file). -/
structure InputFile where
  bytes : List Nat
  pos : Nat
  good : Bool

/-- The call `inputFile.read(buf.data(), n)`: on a good stream with `n` bytes left
the next `n` bytes are stored in `buf[0..n-1]`; with fewer bytes left the
available ones are stored and the stream goes bad; on a bad stream nothing is
read. -/
def InputFile.read (f : InputFile) (buf : Buffer) (n : Nat) : InputFile × Buffer :=
  if f.good then
    if f.pos + n ≤ f.bytes.length then
      ({ f with pos := f.pos + n },
        fun i => if i < n then f.bytes.getD (f.pos + i) 0 else buf i)
    else
      ({ f with pos := f.bytes.length, good := false },
        fun i => if f.pos + i < f.bytes.length then f.bytes.getD (f.pos + i) 0 else buf i)
  else
    (f, buf)

/-- One iteration of the interleaving loop: `inData[3*i] = Rbuf[i];
inData[3*i+1] = Gbuf[i]; inData[3*i+2] = Bbuf[i]`.  A `char` is stored into an
`unsigned char` with the same byte, so the conversion is the identity on
bytes. -/
def interleaveStep (Rbuf Gbuf Bbuf : Buffer) (inData : Buffer) (i : Nat) : Buffer :=
  Function.update
    (Function.update (Function.update inData (3 * i) (Rbuf i)) (3 * i + 1) (Gbuf i))
    (3 * i + 2) (Bbuf i)

/-- `readImageData(imagePath, width, height)`: `file` is the content of the file at
`imagePath`, or `none` when it cannot be opened (`exit(1)`, modelled as
`Except.error 1`); the three `vector<char>` start zero-filled; `inData` is the
content of the freshly allocated result buffer. -/
def readImageData (file : Option (List Nat)) (width height : Nat) (inData : Buffer) :
    Except Nat Buffer :=
  match file with
  | none => Except.error 1
  | some bytes =>
    let f0 : InputFile := { bytes := bytes, pos := 0, good := true }
    let r := f0.read (fun _ => 0) (width * height)
    let g := r.1.read (fun _ => 0) (width * height)
    let b := g.1.read (fun _ => 0) (width * height)
    Except.ok ((List.range (height * width)).foldl (interleaveStep r.2 g.2 b.2) inData)

/-! ## The program on the machine: 32-bit `int`, `malloc`, the stack -/

/-- The limits of the machine the program runs on: `malloc(n)` returns a buffer
exactly when `n ≤ heapLimit` (and `n` does not exceed `PTRDIFF_MAX`), and the
variable-length `int` arrays of `MyFrame::MyFrame` fit on the stack exactly
when they have at most `stackInts` entries in total. -/
structure Platform where
  heapLimit : Nat
  stackInts : Nat

/-- What a run of the program ends in: `exit(code)`; a run that leaves the
behaviour the language defines (a store outside the allocated buffer, in
particular through the null pointer of a failed `malloc`; a shift by a count
outside `0..31`; an array of non-positive size or one that does not fit on the
stack) or the range the embedding follows, about which nothing more is said
(such a run is typically killed by SIGSEGV); or the raster handed to
`inImage.SetData`. -/
inductive Outcome where
  | exit (code : Nat)
  | undefined
  | raster (data : Buffer)

/-- The 32-bit two's-complement `int` holding the integer `x` modulo `2^32`. -/
def wrapInt (x : Int) : Int := (x + 2147483648) % 4294967296 - 2147483648

/-- Conversion of an `int` to the 64-bit `size_t`. -/
def toSizeT (x : Int) : Nat := (x % 18446744073709551616).toNat

/-- The argument `newWidth * newHeight * 3 * sizeof(unsigned char)` of `malloc`:
the two products are `int` products, the last factor is 1. -/
def mallocRequest (newWidth newHeight : Int) : Nat :=
  toSizeT (wrapInt (wrapInt (newWidth * newHeight) * 3))

/-- The number of bytes behind the pointer `resizedData`: the request when
`malloc` satisfies it, none when it returns the null pointer (the result is
not checked by the program). -/
def allocSize (P : Platform) (newWidth newHeight : Int) : Nat :=
  if mallocRequest newWidth newHeight ≤ P.heapLimit ∧
      mallocRequest newWidth newHeight ≤ 9223372036854775807 then
    mallocRequest newWidth newHeight
  else
    0

/-- The `int newRow = row * newRowRatio` for an `int newHeight` of either sign. -/
def newRowInt (newHeight : Int) (row : Nat) : Int :=
  truncToInt ((row : ℚ) * ((newHeight : ℚ) / (ORIGINAL_HEIGHT : ℚ)))

/-- The `int newCol = col*newColRatio` for an `int newWidth` of either sign. -/
def newColInt (newWidth : Int) (col : Nat) : Int :=
  truncToInt ((col : ℚ) * ((newWidth : ℚ) / (ORIGINAL_WIDTH : ℚ)))

/-- The `int newIndex = newRow*newWidth*3 + newCol*3` as the machine computes it:
every product and the sum are 32-bit. -/
def newIndexInt (newWidth newHeight : Int) (row col : Nat) : Int :=
  wrapInt (wrapInt (wrapInt (newRowInt newHeight row * newWidth) * 3) +
    wrapInt (newColInt newWidth col * 3))

/-- Every store `resizedData[newIndex + c]`, `c = 0, 1, 2`, of the resampling loop
falls inside a buffer of `size` bytes. -/
def storesInBounds (newWidth newHeight : Int) (size : Nat) : Prop :=
  ∀ row, row < ORIGINAL_HEIGHT → ∀ col, col < ORIGINAL_WIDTH →
    0 ≤ newIndexInt newWidth newHeight row col ∧
      newIndexInt newWidth newHeight row col + 2 < (size : Int)

instance (newWidth newHeight : Int) (size : Nat) :
    Decidable (storesInBounds newWidth newHeight size) := by
  unfold storesInBounds
  infer_instance

/-- The body of the resampling loop with the machine's `newIndex`. -/
def resampleStepInt (inData : Buffer) (newWidth newHeight : Int) (resizedData : Buffer)
    (row col : Nat) : Buffer :=
  CalculateKernel inData (ORIGINAL_HEIGHT : Int) (ORIGINAL_WIDTH : Int) (row : Int) (col : Int)
    resizedData (newIndexInt newWidth newHeight row col).toNat

/-- The resampling loop with the machine's `newIndex`. -/
def resampleLoopInt (inData : Buffer) (newWidth newHeight : Int) (resizedData : Buffer) :
    Buffer :=
  (List.range ORIGINAL_HEIGHT).foldl
    (fun buf row =>
      (List.range ORIGINAL_WIDTH).foldl
        (fun buf col => resampleStepInt inData newWidth newHeight buf row col) buf)
    resizedData

/-- Lines 171-185 on the machine: `malloc`, then the resampling loop; `none` when
a store of the loop falls outside the allocated buffer (always so when `malloc`
returned the null pointer). -/
def resampleRun (P : Platform) (inData : Buffer) (newWidth newHeight : Int)
    (resizedData : Buffer) : Option Buffer :=
  if storesInBounds newWidth newHeight (allocSize P newWidth newHeight) then
    some (resampleLoopInt inData newWidth newHeight resizedData)
  else
    none

/-- The count `int numBuckets = (1<<channelBits)` as a 32-bit `int`; no value when
the shift count is outside `0..31`. -/
def numBucketsInt (channelBits : Int) : Option Int :=
  if 0 ≤ channelBits ∧ channelBits < 32 then some (wrapInt (2 ^ channelBits.toNat)) else none

/-- The index `newIndex + c` with `int newIndex = row*newWidth*3 + col*3` of the
quantization pass as the machine computes it. -/
def quantizeIndexInt (newWidth : Int) (row col c : Nat) : Int :=
  wrapInt (wrapInt (wrapInt (wrapInt ((row : Int) * newWidth) * 3) + wrapInt ((col : Int) * 3)) +
    (c : Int))

/-- Every access `data[newIndex + c]` of the quantization pass falls inside a
buffer of `size` bytes. -/
def quantizeInBounds (newWidth newHeight : Int) (size : Nat) : Prop :=
  ∀ row, row < newHeight.toNat → ∀ col, col < newWidth.toNat → ∀ c, c < 3 →
    0 ≤ quantizeIndexInt newWidth row col c ∧
      quantizeIndexInt newWidth row col c < (size : Int)

instance (newWidth newHeight : Int) (size : Nat) :
    Decidable (quantizeInBounds newWidth newHeight size) := by
  unfold quantizeInBounds
  infer_instance

/-- The quantization pass with the machine's indices; the loops
`row < newHeight`, `col < newWidth` do not run for a non-positive bound. -/
def quantizePassInt (resizedData : Buffer) (newWidth newHeight : Int) (intervals : IntTable)
    (numBuckets : Nat) : Buffer :=
  (List.range newHeight.toNat).foldl
    (fun data row =>
      (List.range newWidth.toNat).foldl
        (fun data col =>
          (List.range 3).foldl
            (fun data c =>
              QuantizePixel data (quantizeIndexInt newWidth row col c).toNat intervals
                numBuckets)
            data)
        data)
    resizedData

/-- Lines 189-249 on the machine, on a resampled buffer of `size` bytes: the array
`intervals[numBuckets+1]` is declared in every case; for `channelBits != 8` the
table is built (the pivot-weighted branch declares four more arrays of the
same size) and the pass is run.  The `int` arithmetic of the pivot-weighted
table is followed in unbounded integers, which is what the machine computes
while `|mode| ≤ 2^20` and the truncated exponentials stay in `[0,256]`; a
`mode` beyond that is outside the embedding. -/
def quantizeRun (P : Platform) (expEdge : Nat → Nat → Int) (resized : Buffer) (size : Nat)
    (newWidth newHeight channelBits mode : Int) (intervals : IntTable) : Outcome :=
  match numBucketsInt channelBits with
  | none => Outcome.undefined
  | some numBuckets =>
    if numBuckets + 1 ≤ 0 ∨ (P.stackInts : Int) < numBuckets + 1 then
      Outcome.undefined
    else if channelBits ≠ 8 then
      if mode ≠ -1 ∧ ((P.stackInts : Int) < 5 * (numBuckets + 1) ∨ mode < -1048576 ∨
          1048576 < mode) then
        Outcome.undefined
      else if quantizeInBounds newWidth newHeight size then
        Outcome.raster
          (quantizePassInt resized newWidth newHeight
            (buildIntervals expEdge numBuckets.toNat mode intervals) numBuckets.toNat)
      else
        Outcome.undefined
    else
      Outcome.raster resized

/-! ## `MyFrame::MyFrame` and `MyApp::OnInit` as a whole (Main.cpp 54-84, 147-258) -/

/-- The constructor `MyFrame::MyFrame` up to `inImage.SetData`, on the machine `P`:
the source is read with `readImageData(imagePath, 512, 512)`, which exits with
status 1 when the file does not open and stores through an unchecked `malloc`
of `512*512*3` bytes; then the destination buffer is allocated, resampled and
quantized.  The probe call `CalculateKernel(inData, 512, 512, 1, 1, kernel)`
inside `try` only prints and cannot throw.  `inData`, `resizedData` and
`intervals` are the contents of the freshly allocated buffers. -/
def MyFrame (P : Platform) (expEdge : Nat → Nat → Int) (file : Option (List Nat))
    (newWidth newHeight channelBits mode : Int) (inData resizedData : Buffer)
    (intervals : IntTable) : Outcome :=
  match readImageData file ORIGINAL_WIDTH ORIGINAL_HEIGHT inData with
  | Except.error e => Outcome.exit e
  | Except.ok image =>
    if ORIGINAL_WIDTH * ORIGINAL_HEIGHT * 3 ≤ P.heapLimit then
      match resampleRun P image newWidth newHeight resizedData with
      | none => Outcome.undefined
      | some resized =>
        quantizeRun P expEdge resized (allocSize P newWidth newHeight) newWidth newHeight
          channelBits mode intervals
    else
      Outcome.undefined

/-- Conversion of a `double` to a 32-bit `int` on the machine: truncation toward
zero, and `INT_MIN` when the truncated value does not fit (the result of the
x86 conversion instruction; the language leaves this case undefined). -/
def doubleToInt (q : ℚ) : Int :=
  if -2147483648 ≤ truncToInt q ∧ truncToInt q ≤ 2147483647 then truncToInt q
  else -2147483648

/-- `MyApp::OnInit` on the machine `P`: `exit(1)` when `argc != 5`; otherwise the
parsed `scale`, `channelBits` and `mode` are passed on unchecked, with
`int dimensions = *scale * 512` as both destination dimensions. -/
def OnInit (P : Platform) (expEdge : Nat → Nat → Int) (argc : Nat)
    (file : Option (List Nat)) (scale : ℚ) (channelBits mode : Int)
    (inData resizedData : Buffer) (intervals : IntTable) : Outcome :=
  if argc ≠ 5 then
    Outcome.exit 1
  else
    let dimensions := doubleToInt (scale * 512)
    MyFrame P expEdge file dimensions dimensions channelBits mode inData resizedData intervals

/-- The machine used in the concrete runs below: `malloc` satisfies requests up
to 4 GiB and the stack holds `2^20` `int`s of variable-length arrays. -/
def samplePlatform : Platform := { heapLimit := 4294967296, stackInts := 1048576 }

/-- A destination pixel `(r, c)` onto which no source pixel of `[0,512)²` is
projected by `(floor(row*H1/512), floor(col*W1/512))`. -/
def unmapped (newWidth newHeight r c : Nat) : Prop :=
  ∀ row, row < 512 → ∀ col, col < 512 →
    ¬ (row * newHeight / 512 = r ∧ col * newWidth / 512 = c)

/-- The source index `x` is the largest one in `[0,512)` projected onto `y` by
`floor(x * n / 512)`. -/
def largestSource (n y x : Nat) : Prop :=
  x < 512 ∧ x * n / 512 = y ∧ ∀ x2, x2 < 512 → x2 * n / 512 = y → x2 ≤ x

/-! ## Basic facts -/

theorem toUChar_of_byte {x : Int} (h0 : 0 ≤ x) (h1 : x ≤ 255) :
    ((toUChar x : Nat) : Int) = x := by
  unfold toUChar
  have : x % 256 = x := Int.emod_eq_of_lt h0 (by omega)
  rw [this]
  exact Int.toNat_of_nonneg h0

/-- The loop, when no pair from `i` on matches, falls through to the last entry. -/
theorem quantizeLoop_none (v : Int) (t : IntTable) (n : Nat) :
    ∀ (k i : Nat), (∀ j, i ≤ j → j < i + k → ¬ (t j ≤ v ∧ v ≤ t (j + 1))) →
      quantizeLoop v t n i k = t (n - 1) := by
  intro k
  induction k with
  | zero => intro i _; rfl
  | succ k ih =>
    intro i h
    have hi := h i (le_refl _) (by omega)
    rw [quantizeLoop, if_neg hi]
    exact ih (i + 1) (fun j hj1 hj2 => h j (by omega) (by omega))

/-- The loop, when `m` is the first matching pair from `i` on, decides between
the two endpoints of that pair. -/
theorem quantizeLoop_first (v : Int) (t : IntTable) (n : Nat) :
    ∀ (k i m : Nat), i ≤ m → m < i + k →
      (∀ j, i ≤ j → j < m → ¬ (t j ≤ v ∧ v ≤ t (j + 1))) →
      (t m ≤ v ∧ v ≤ t (m + 1)) →
      quantizeLoop v t n i k =
        if v ≤ Int.tdiv (t m + t (m + 1)) 2 then t m else t (m + 1) := by
  intro k
  induction k with
  | zero => intro i m h1 h2; omega
  | succ k ih =>
    intro i m h1 h2 hfirst hm
    by_cases hmi : m = i
    · subst hmi
      rw [quantizeLoop, if_pos hm]
    · have hi := hfirst i (le_refl _) (by omega)
      rw [quantizeLoop, if_neg hi]
      exact ih (i + 1) m (by omega) (by omega)
        (fun j hj1 hj2 => hfirst j (by omega) hj2) hm

/-- For non-negative endpoints the truncated midpoint test is the
"closer to the lower endpoint, ties included" test. -/
theorem midpoint_test (v a b : Int) (h : 0 ≤ a + b) :
    v ≤ Int.tdiv (a + b) 2 ↔ v - a ≤ b - v := by
  rw [Int.tdiv_eq_ediv h (by decide)]
  omega

/-! ## C1: the nearest-match rule of `QuantizePixel` -/

/-- C1. `QuantizePixel` nearest-match rule: for a table whose used entries
`t[0..numBuckets-1]` lie in `[0,255]`, `numBuckets ≥ 1` and a byte `v` stored at
`pixelIndex`: if `i` is the first index in `[0, numBuckets-2]` with
`t[i] ≤ v ≤ t[i+1]`, the byte stored is `t[i]` when `v - t[i] ≤ t[i+1] - v`
(a tie goes to the lower endpoint) and `t[i+1]` otherwise; if no index matches,
the byte stored is `t[numBuckets-1]`. -/
theorem quantizePixel_nearest_match (t : IntTable) (numBuckets v : Nat) (data : Buffer)
    (pixelIndex : Nat) (hn : 1 ≤ numBuckets)
    (ht : ∀ i, i < numBuckets → 0 ≤ t i ∧ t i ≤ 255)
    (hv : v < 256) (hdata : data pixelIndex = v) :
    (∀ i, i + 1 < numBuckets → (t i ≤ (v : Int) ∧ (v : Int) ≤ t (i + 1)) →
        (∀ j, j < i → ¬ (t j ≤ (v : Int) ∧ (v : Int) ≤ t (j + 1))) →
        ((QuantizePixel data pixelIndex t numBuckets pixelIndex : Nat) : Int) =
          if (v : Int) - t i ≤ t (i + 1) - (v : Int) then t i else t (i + 1)) ∧
    ((∀ i, i + 1 < numBuckets → ¬ (t i ≤ (v : Int) ∧ (v : Int) ≤ t (i + 1))) →
        ((QuantizePixel data pixelIndex t numBuckets pixelIndex : Nat) : Int) =
          t (numBuckets - 1)) := by
  have hstore : (QuantizePixel data pixelIndex t numBuckets pixelIndex : Nat) =
      toUChar (quantizeValue v t numBuckets) := by
    simp [QuantizePixel, hdata]
  constructor
  · intro i hi hpair hfirst
    have hloop := quantizeLoop_first (v : Int) t numBuckets (numBuckets - 1) 0 i
      (Nat.zero_le _) (by omega) (fun j _ hj => hfirst j hj) hpair
    have hi0 := ht i (by omega)
    have hi1 := ht (i + 1) hi
    rw [hstore, quantizeValue, hloop]
    by_cases hmid : (v : Int) - t i ≤ t (i + 1) - (v : Int)
    · rw [if_pos ((midpoint_test _ _ _ (by omega)).2 hmid), if_pos hmid]
      exact toUChar_of_byte hi0.1 hi0.2
    · rw [if_neg (fun h => hmid ((midpoint_test _ _ _ (by omega)).1 h)), if_neg hmid]
      exact toUChar_of_byte hi1.1 hi1.2
  · intro hnone
    have hloop := quantizeLoop_none (v : Int) t numBuckets (numBuckets - 1) 0
      (fun j _ hj => hnone j (by omega))
    have hl := ht (numBuckets - 1) (by omega)
    rw [hstore, quantizeValue, hloop]
    exact toUChar_of_byte hl.1 hl.2

/-- The table `[0, 128]` of two thresholds, used to instantiate C1. -/
theorem quantizePixel_nearest_match_witness :
    ((QuantizePixel (fun _ => 100) 7 (fun i => if i = 0 then 0 else 128) 2 7 : Nat) : Int)
      = 128 := by
  have h := (quantizePixel_nearest_match (fun i => if i = 0 then 0 else 128) 2 100
    (fun _ => 100) 7 (by decide)
    (by intro i _; by_cases h : i = 0 <;> simp [h])
    (by decide) rfl).1 0 (by decide) (by simp) (by intro j hj; omega)
  simpa using h

/-! ## The uniform table in closed form -/

theorem truncToInt_natCast (m : Nat) : truncToInt (m : ℚ) = (m : Int) := by
  simp [truncToInt]

theorem numBucketsOf_eq (channelBits : Nat) : numBucketsOf channelBits = 2 ^ channelBits := by
  simp [numBucketsOf, Nat.shiftLeft_eq]

theorem numBucketsOf_pos (channelBits : Nat) : 1 ≤ numBucketsOf channelBits := by
  rw [numBucketsOf_eq]
  exact Nat.one_le_two_pow

/-- A loop of stores `t[i] = f i` leaves `f j` at the indices it visits. -/
theorem foldl_update_apply {α : Type} (f : Nat → α) (l : List Nat) (t : Nat → α) (j : Nat) :
    (l.foldl (fun t i => Function.update t i (f i)) t) j = if j ∈ l then f j else t j := by
  induction l generalizing t with
  | nil => simp
  | cons a l ih =>
    rw [List.foldl_cons, ih]
    by_cases hj : j ∈ l
    · simp [hj]
    · by_cases hja : j = a
      · subst hja; simp [hj]
      · simp [hj, hja]

/-- The state of the uniform loop after `m` iterations. -/
theorem uniform_fold (numBuckets : Nat) (g : IntTable) (m : Nat) :
    (List.range m).foldl (uniformStep numBuckets) (g, 0) =
      ((fun j => if j < m then truncToInt ((j : ℚ) * bitsPerBucket numBuckets) else g j),
        (m : ℚ) * bitsPerBucket numBuckets) := by
  induction m with
  | zero => simp
  | succ m ih =>
    rw [List.range_succ, List.foldl_append, ih]
    simp only [List.foldl_cons, List.foldl_nil, uniformStep]
    refine Prod.ext ?_ ?_
    · funext j
      by_cases hj : j = m
      · subst hj; simp
      · have : (j < m + 1) = (j < m) := by
          apply propext; constructor <;> intro h <;> omega
        simp [Function.update_noteq hj, this]
    · push_cast; ring

/-- The bucket width `256 / 2^channelBits` is the integer `2^(8-channelBits)` for
`channelBits ≤ 8`. -/
theorem bitsPerBucket_pow (channelBits : Nat) (h : channelBits ≤ 8) :
    bitsPerBucket (numBucketsOf channelBits) = ((2 ^ (8 - channelBits) : Nat) : ℚ) := by
  have h256 : (256 : ℚ) = 2 ^ (8 - channelBits) * 2 ^ channelBits := by
    rw [← pow_add, Nat.sub_add_cancel h]; norm_num
  rw [bitsPerBucket, numBucketsOf_eq]
  have hne : ((2 : ℚ) ^ channelBits) ≠ 0 := by positivity
  simp only [originalBitSize, Nat.shiftLeft_eq]
  push_cast
  rw [div_eq_iff hne]
  exact h256

/-- The uniform table: `intervals[i] = i * 2^(8-channelBits)` for `i < numBuckets`,
every other entry is left as it was. -/
theorem uniformIntervals_apply (channelBits : Nat) (h : channelBits ≤ 8) (g : IntTable)
    (i : Nat) :
    uniformIntervals (numBucketsOf channelBits) g i =
      if i < numBucketsOf channelBits then ((i * 2 ^ (8 - channelBits) : Nat) : Int)
      else g i := by
  rw [uniformIntervals, uniform_fold, bitsPerBucket_pow channelBits h]
  show (if i < numBucketsOf channelBits
      then truncToInt ((i : ℚ) * ((2 ^ (8 - channelBits) : Nat) : ℚ)) else g i) = _
  have : ((i : ℚ) * ((2 ^ (8 - channelBits) : Nat) : ℚ)) =
      ((i * 2 ^ (8 - channelBits) : Nat) : ℚ) := by push_cast; ring
  rw [this, truncToInt_natCast]

/-! ## C2: the uniform one-bit quantizer -/

/-- The byte map of the uniform one-bit quantizer. -/
theorem quantizeByte_uniform_one_eq (expEdge : Nat → Nat → Int) (g : IntTable) (v : Nat) :
    quantizeByte expEdge 1 (-1) g v = if v ≤ 64 then 0 else 128 := by
  have h0 : uniformIntervals (numBucketsOf 1) g 0 = 0 := by
    rw [uniformIntervals_apply 1 (by decide)]; simp [numBucketsOf]
  have h1 : uniformIntervals (numBucketsOf 1) g 1 = 128 := by
    rw [uniformIntervals_apply 1 (by decide)]; simp [numBucketsOf]
  have hn : numBucketsOf 1 = 2 := by simp [numBucketsOf]
  unfold quantizeByte buildIntervals quantizeValue
  rw [if_pos rfl, hn]
  rw [hn] at h0 h1
  simp only [quantizeLoop, h0, h1]
  have hmid : Int.tdiv (0 + 128) 2 = 64 := by decide
  have hu0 : toUChar 0 = 0 := by decide
  have hu1 : toUChar 128 = 128 := by decide
  rw [hmid]
  split_ifs <;> first | exact hu0 | exact hu1 | omega

/-- C2 (as amended). Under the uniform policy (`mode = -1`) with
`channelBits = 1` the table is `[0, 128]` and the quantizer maps every input
value in `0..64` to `0` and every input value from `65` on (so every byte in
`65..255`) to `128`. -/
theorem uniform_one_bit_levels (expEdge : Nat → Nat → Int) (g : IntTable) (v : Nat) :
    quantizeByte expEdge 1 (-1) g v = if v ≤ 64 then 0 else 128 :=
  quantizeByte_uniform_one_eq expEdge g v

/-- C2 fails as stated: the byte `100` lies in `0..127` and is mapped to `128`,
not to `0`. -/
theorem uniform_one_bit_counterexample :
    (100 : Nat) ≤ 127 ∧ quantizeByte idealExpEdge 1 (-1) (fun _ => 0) 100 = 128 ∧
      ¬ (∀ v, v ≤ 127 → quantizeByte idealExpEdge 1 (-1) (fun _ => 0) v = 0) := by
  refine ⟨by decide, ?_, ?_⟩
  · rw [quantizeByte_uniform_one_eq]; decide
  · intro h
    have h100 := h 100 (by decide)
    rw [quantizeByte_uniform_one_eq] at h100
    revert h100
    decide

/-! ## C7: the number of cells averaged by `CalculateKernel` -/

/-- One offset adds one to `numCells` exactly when the cell is in bounds. -/
theorem kernelCell_numCells (image : Buffer) (height width row col a b : Int)
    (acc : KernelAcc) :
    (kernelCell image height width row col a b acc).numCells =
      acc.numCells +
        (if 0 ≤ row + a ∧ row + a < height ∧ 0 ≤ col + b ∧ col + b < width then 1 else 0) := by
  unfold kernelCell
  by_cases h : row + a < 0 ∨ row + a ≥ height ∨ col + b < 0 ∨ col + b ≥ width
  · have h2 : ¬ (0 ≤ row + a ∧ row + a < height ∧ 0 ≤ col + b ∧ col + b < width) := by omega
    simp only [h, h2, if_true, if_false, add_zero]
  · have h2 : (0 ≤ row + a ∧ row + a < height ∧ 0 ≤ col + b ∧ col + b < width) := by omega
    simp only [h, if_false]
    rw [if_pos h2]

/-- The indicator of an in-bounds cell is the product of the indicators of an
in-bounds row and an in-bounds column. -/
theorem ite_bounds_mul (A B : Prop) [Decidable A] [Decidable B] :
    (if A ∧ B then (1 : Int) else 0) = (if A then 1 else 0) * (if B then 1 else 0) := by
  by_cases hA : A <;> by_cases hB : B <;> simp [hA, hB]

/-- The value of `numCells` after the two offset loops: the number of in-bounds
rows among `row-1, row, row+1` times the number of in-bounds columns among
`col-1, col, col+1`. -/
theorem kernelSums_numCells (image : Buffer) (height width row col : Int) :
    (kernelSums image height width row col).numCells =
      ((if 0 ≤ row + -1 ∧ row + -1 < height then 1 else 0)
        + (if 0 ≤ row + 0 ∧ row + 0 < height then 1 else 0)
        + (if 0 ≤ row + 1 ∧ row + 1 < height then 1 else 0)) *
      ((if 0 ≤ col + -1 ∧ col + -1 < width then 1 else 0)
        + (if 0 ≤ col + 0 ∧ col + 0 < width then 1 else 0)
        + (if 0 ≤ col + 1 ∧ col + 1 < width then 1 else 0)) := by
  simp only [kernelSums, kernelOffsets, List.foldl, kernelCell_numCells, ← and_assoc]
  simp only [and_assoc (c := _ < width), ite_bounds_mul]
  ring

/-- C7. For a raster of height and width at least 2, `CalculateKernel`
accumulates exactly 9 cells at a coordinate strictly inside the bounds, exactly
4 at each of the four corners, and exactly 6 at a non-corner coordinate on an
edge. -/
theorem kernel_numCells_count (image : Buffer) (height width row col : Int)
    (hh : 2 ≤ height) (hw : 2 ≤ width) :
    ((0 < row ∧ row < height - 1 ∧ 0 < col ∧ col < width - 1) →
        (kernelSums image height width row col).numCells = 9) ∧
    (((row = 0 ∨ row = height - 1) ∧ (col = 0 ∨ col = width - 1)) →
        (kernelSums image height width row col).numCells = 4) ∧
    ((((row = 0 ∨ row = height - 1) ∧ 0 < col ∧ col < width - 1) ∨
      (0 < row ∧ row < height - 1 ∧ (col = 0 ∨ col = width - 1))) →
        (kernelSums image height width row col).numCells = 6) := by
  have inner : ∀ (x n : Int), 0 < x → x < n - 1 →
      ((if 0 ≤ x + -1 ∧ x + -1 < n then 1 else 0) + (if 0 ≤ x + 0 ∧ x + 0 < n then 1 else 0)
        + (if 0 ≤ x + 1 ∧ x + 1 < n then 1 else 0) : Int) = 3 := by
    intro x n h1 h2
    split_ifs <;> omega
  have border : ∀ (x n : Int), 2 ≤ n → (x = 0 ∨ x = n - 1) →
      ((if 0 ≤ x + -1 ∧ x + -1 < n then 1 else 0) + (if 0 ≤ x + 0 ∧ x + 0 < n then 1 else 0)
        + (if 0 ≤ x + 1 ∧ x + 1 < n then 1 else 0) : Int) = 2 := by
    intro x n h1 h2
    split_ifs <;> omega
  rw [kernelSums_numCells]
  refine ⟨?_, ?_, ?_⟩
  · rintro ⟨h1, h2, h3, h4⟩
    rw [inner row height h1 h2, inner col width h3 h4]
    rfl
  · rintro ⟨h1, h2⟩
    rw [border row height hh h1, border col width hw h2]
    rfl
  · rintro (⟨h1, h2, h3⟩ | ⟨h1, h2, h3⟩)
    · rw [border row height hh h1, inner col width h2 h3]
      rfl
    · rw [inner row height h1 h2, border col width hw h3]
      rfl


/-- Witness of C7 on the 512x512 raster: an interior coordinate, a corner and a
non-corner edge coordinate. -/
theorem kernel_numCells_count_witness :
    (kernelSums (fun _ => 0) 512 512 5 7).numCells = 9 ∧
    (kernelSums (fun _ => 0) 512 512 0 511).numCells = 4 ∧
    (kernelSums (fun _ => 0) 512 512 511 7).numCells = 6 :=
  ⟨(kernel_numCells_count (fun _ => 0) 512 512 5 7 (by decide) (by decide)).1 (by decide),
   (kernel_numCells_count (fun _ => 0) 512 512 0 511 (by decide) (by decide)).2.1 (by decide),
   (kernel_numCells_count (fun _ => 0) 512 512 511 7 (by decide) (by decide)).2.2 (by decide)⟩

/-! ## C8: `CalculateKernel` on a raster of one colour -/

/-- At an in-bounds coordinate the centre cell is counted, so `numCells ≥ 1`. -/
theorem kernelSums_numCells_pos (image : Buffer) (height width row col : Int)
    (hr0 : 0 ≤ row) (hr1 : row < height) (hc0 : 0 ≤ col) (hc1 : col < width) :
    1 ≤ (kernelSums image height width row col).numCells := by
  rw [kernelSums_numCells]
  have hrow : (1 : Int) ≤ (if 0 ≤ row + -1 ∧ row + -1 < height then 1 else 0)
        + (if 0 ≤ row + 0 ∧ row + 0 < height then 1 else 0)
        + (if 0 ≤ row + 1 ∧ row + 1 < height then 1 else 0) := by
    split_ifs <;> omega
  have hcol : (1 : Int) ≤ (if 0 ≤ col + -1 ∧ col + -1 < width then 1 else 0)
        + (if 0 ≤ col + 0 ∧ col + 0 < width then 1 else 0)
        + (if 0 ≤ col + 1 ∧ col + 1 < width then 1 else 0) := by
    split_ifs <;> omega
  have := mul_pos (lt_of_lt_of_le Int.zero_lt_one hrow) (lt_of_lt_of_le Int.zero_lt_one hcol)
  omega

/-- The byte offset of an in-bounds cell is `3 * p + c` for a pixel number
`p < height * width`. -/
theorem cell_offset (height width : Nat) (curRow curCol : Int)
    (h : ¬ (curRow < 0 ∨ curRow ≥ (height : Int) ∨ curCol < 0 ∨ curCol ≥ (width : Int))) :
    ∃ p : Nat, p < height * width ∧
      ∀ c : Nat, (curRow * (width : Int) * 3 + curCol * 3 + (c : Int)).toNat = 3 * p + c := by
  have h0 : 0 ≤ curRow := by omega
  have h1 : 0 ≤ curCol := by omega
  lift curRow to Nat using h0
  lift curCol to Nat using h1
  have hr : curRow < height := by omega
  have hc : curCol < width := by omega
  refine ⟨curRow * width + curCol, ?_, ?_⟩
  · calc curRow * width + curCol < curRow * width + width := by omega
      _ = (curRow + 1) * width := by ring
      _ ≤ height * width := Nat.mul_le_mul_right _ (by omega)
  · intro c
    have : ((curRow : Int) * (width : Int) * 3 + (curCol : Int) * 3 + (c : Int)) =
        ((3 * (curRow * width + curCol) + c : Nat) : Int) := by push_cast; ring
    rw [this, Int.toNat_natCast]

/-- On a raster of one colour every offset keeps `totalSum[c] = numCells * colour c`. -/
theorem kernelCell_uniform (image : Buffer) (height width : Nat) (row col a b : Int)
    (colour : Nat → Nat)
    (himg : ∀ p, p < height * width → ∀ c, c < 3 → image (3 * p + c) = colour c)
    (acc : KernelAcc)
    (hacc : acc.totalSum0 = acc.numCells * colour 0 ∧ acc.totalSum1 = acc.numCells * colour 1 ∧
      acc.totalSum2 = acc.numCells * colour 2) :
    (kernelCell image height width row col a b acc).totalSum0 =
        (kernelCell image height width row col a b acc).numCells * colour 0 ∧
    (kernelCell image height width row col a b acc).totalSum1 =
        (kernelCell image height width row col a b acc).numCells * colour 1 ∧
    (kernelCell image height width row col a b acc).totalSum2 =
        (kernelCell image height width row col a b acc).numCells * colour 2 := by
  unfold kernelCell
  by_cases h : row + a < 0 ∨ row + a ≥ (height : Int) ∨ col + b < 0 ∨ col + b ≥ (width : Int)
  · simp only [h, if_true]
    exact hacc
  · obtain ⟨p, hp, hidx⟩ := cell_offset height width (row + a) (col + b) h
    have e0 := hidx 0
    have e1 := hidx 1
    have e2 := hidx 2
    simp only [Nat.cast_zero, Nat.cast_one, Nat.cast_ofNat] at e0 e1 e2
    simp only [h, if_false]
    rw [e0, e1, e2, himg p hp 0 (by decide), himg p hp 1 (by decide), himg p hp 2 (by decide)]
    obtain ⟨h0, h1, h2⟩ := hacc
    rw [h0, h1, h2]
    refine ⟨by ring, by ring, by ring⟩

/-- On a raster of one colour the sums after the two loops are `numCells * colour c`. -/
theorem kernelSums_uniform (image : Buffer) (height width : Nat) (row col : Int)
    (colour : Nat → Nat)
    (himg : ∀ p, p < height * width → ∀ c, c < 3 → image (3 * p + c) = colour c) :
    (kernelSums image height width row col).totalSum0 =
        (kernelSums image height width row col).numCells * colour 0 ∧
    (kernelSums image height width row col).totalSum1 =
        (kernelSums image height width row col).numCells * colour 1 ∧
    (kernelSums image height width row col).totalSum2 =
        (kernelSums image height width row col).numCells * colour 2 := by
  simp only [kernelSums, kernelOffsets, List.foldl]
  iterate 9 apply kernelCell_uniform image height width row col _ _ colour himg
  simp

/-- On a raster of one colour the byte computed for channel `c` is `colour c`. -/
theorem kernelRGB_uniform (image : Buffer) (height width row col : Nat) (colour : Nat → Nat)
    (hcolour : ∀ c, c < 3 → colour c < 256)
    (himg : ∀ p, p < height * width → ∀ c, c < 3 → image (3 * p + c) = colour c)
    (hr : row < height) (hc : col < width) (c : Nat) (hc3 : c < 3) :
    kernelRGB image height width row col c = colour c := by
  have hpos := kernelSums_numCells_pos image height width row col
    (by omega) (by omega) (by omega) (by omega)
  obtain ⟨h0, h1, h2⟩ := kernelSums_uniform image height width row col colour himg
  have hne : (kernelSums image height width row col).numCells ≠ 0 := by omega
  have hbyte : ∀ k, k < 3 → toUChar ((colour k : Nat) : Int) = colour k := by
    intro k hk
    have := hcolour k hk
    unfold toUChar
    omega
  unfold kernelRGB
  have hc' : c = 0 ∨ c = 1 ∨ c = 2 := by omega
  rcases hc' with rfl | rfl | rfl
  · show toUChar (Int.tdiv (kernelSums _ _ _ _ _).totalSum0 _) = _
    rw [h0, Int.mul_tdiv_cancel_left _ hne, hbyte 0 (by decide)]
  · show toUChar (Int.tdiv (kernelSums _ _ _ _ _).totalSum1 _) = _
    rw [h1, Int.mul_tdiv_cancel_left _ hne, hbyte 1 (by decide)]
  · show toUChar (Int.tdiv (kernelSums _ _ _ _ _).totalSum2 _) = _
    rw [h2, Int.mul_tdiv_cancel_left _ hne, hbyte 2 (by decide)]

/-- The three bytes written by `CalculateKernel`. -/
theorem CalculateKernel_apply_out (image : Buffer) (height width row col : Int)
    (output : Buffer) (outIndex c : Nat) (hc : c < 3) :
    CalculateKernel image height width row col output outIndex (outIndex + c) =
      kernelRGB image height width row col c := by
  have hc' : c = 0 ∨ c = 1 ∨ c = 2 := by omega
  unfold CalculateKernel
  rcases hc' with rfl | rfl | rfl
  · rw [Function.update_noteq (by omega), Function.update_noteq (by omega)]
    exact Function.update_same _ _ _
  · rw [Function.update_noteq (by omega)]
    exact Function.update_same _ _ _
  · exact Function.update_same _ _ _

/-- Every other byte of the output buffer is left as it was. -/
theorem CalculateKernel_apply_other (image : Buffer) (height width row col : Int)
    (output : Buffer) (outIndex j : Nat) (hj : j < outIndex ∨ outIndex + 3 ≤ j) :
    CalculateKernel image height width row col output outIndex j = output j := by
  unfold CalculateKernel
  rw [Function.update_noteq (by omega), Function.update_noteq (by omega),
    Function.update_noteq (by omega)]

/-- C8. For a source raster in which every pixel has the colour `(R,G,B)` and
every in-bounds coordinate `(row, col)`, corners and edges included,
`CalculateKernel` writes exactly `(R,G,B)` into its output cell. -/
theorem calculateKernel_uniform_colour (image : Buffer) (height width row col : Nat)
    (colour : Nat → Nat) (output : Buffer) (outIndex : Nat)
    (hcolour : ∀ c, c < 3 → colour c < 256)
    (himg : ∀ p, p < height * width → ∀ c, c < 3 → image (3 * p + c) = colour c)
    (hr : row < height) (hc : col < width) :
    ∀ c, c < 3 →
      CalculateKernel image height width row col output outIndex (outIndex + c) = colour c := by
  intro c hc3
  rw [CalculateKernel_apply_out _ _ _ _ _ _ _ _ hc3]
  exact kernelRGB_uniform image height width row col colour hcolour himg hr hc c hc3


/-- Witness of C8: the corner `(0,0)` of a 2x2 raster of colour `(200,100,50)`. -/
theorem calculateKernel_uniform_colour_witness :
    CalculateKernel (fun i => if i % 3 = 0 then 200 else if i % 3 = 1 then 100 else 50)
        ((2 : Nat) : Int) ((2 : Nat) : Int) ((0 : Nat) : Int) ((0 : Nat) : Int) (fun _ => 0) 6
        (6 + 0) = 200 ∧
    CalculateKernel (fun i => if i % 3 = 0 then 200 else if i % 3 = 1 then 100 else 50)
        ((2 : Nat) : Int) ((2 : Nat) : Int) ((0 : Nat) : Int) ((0 : Nat) : Int) (fun _ => 0) 6
        (6 + 1) = 100 ∧
    CalculateKernel (fun i => if i % 3 = 0 then 200 else if i % 3 = 1 then 100 else 50)
        ((2 : Nat) : Int) ((2 : Nat) : Int) ((0 : Nat) : Int) ((0 : Nat) : Int) (fun _ => 0) 6
        (6 + 2) = 50 := by
  have h := calculateKernel_uniform_colour
    (fun i => if i % 3 = 0 then 200 else if i % 3 = 1 then 100 else 50) 2 2 0 0
    (fun k => if k % 3 = 0 then 200 else if k % 3 = 1 then 100 else 50) (fun _ => 0) 6
    (by intro c _; show (if c % 3 = 0 then 200 else if c % 3 = 1 then 100 else 50) < 256
        split_ifs <;> decide)
    (by intro p _ c hc
        have : (3 * p + c) % 3 = c % 3 := by omega
        show (if (3 * p + c) % 3 = 0 then 200 else if (3 * p + c) % 3 = 1 then 100 else 50) =
          (if c % 3 = 0 then 200 else if c % 3 = 1 then 100 else 50)
        rw [this])
    (by decide) (by decide)
  exact ⟨h 0 (by decide), h 1 (by decide), h 2 (by decide)⟩

/-! ## The resampling loop: destination coordinates and writers -/

theorem truncToInt_nonneg_eq_floor (q : ℚ) (h : 0 ≤ q) : truncToInt q = ⌊q⌋ := by
  unfold truncToInt
  rw [Int.tdiv_eq_ediv (Rat.num_nonneg.2 h) (by positivity)]
  exact (Rat.floor_def' q).symm

/-- The scaled coordinate `(int)(x * (n / 512.0))` is `x * n / 512`. -/
theorem scaled_coord (x n : Nat) :
    (truncToInt ((x : ℚ) * ((n : ℚ) / ((512 : Nat) : ℚ)))).toNat = x * n / 512 := by
  have h0 : (0 : ℚ) ≤ (x : ℚ) * ((n : ℚ) / ((512 : Nat) : ℚ)) := by positivity
  have e : (x : ℚ) * ((n : ℚ) / ((512 : Nat) : ℚ)) = ((x * n : Nat) : ℚ) / ((512 : Nat) : ℚ) := by
    push_cast; ring
  rw [truncToInt_nonneg_eq_floor _ h0, e, Rat.floor_natCast_div_natCast]
  exact Int.toNat_natCast _

theorem newRow_eq (newHeight row : Nat) : newRow newHeight row = row * newHeight / 512 :=
  scaled_coord row newHeight

theorem newCol_eq (newWidth col : Nat) : newCol newWidth col = col * newWidth / 512 :=
  scaled_coord col newWidth

/-- A source column is projected inside the destination row. -/
theorem newCol_lt (newWidth col : Nat) (hw : 1 ≤ newWidth) (hcol : col < 512) :
    newCol newWidth col < newWidth := by
  rw [newCol_eq, Nat.div_lt_iff_lt_mul (by decide)]
  exact Nat.mul_lt_mul_of_lt_of_le hcol (le_refl _) hw |>.trans_le (by rw [Nat.mul_comm])

/-- A source row is projected inside the destination raster. -/
theorem newRow_lt (newHeight row : Nat) (hh : 1 ≤ newHeight) (hrow : row < 512) :
    newRow newHeight row < newHeight := by
  rw [newRow_eq, Nat.div_lt_iff_lt_mul (by decide)]
  exact Nat.mul_lt_mul_of_lt_of_le hrow (le_refl _) hh |>.trans_le (by rw [Nat.mul_comm])

/-- Row-major pixel numbers determine the row and the column. -/
theorem rowMajor_inj (W a b a2 b2 : Nat) (hb : b < W) (hb2 : b2 < W)
    (h : a * W + b = a2 * W + b2) : a = a2 ∧ b = b2 := by
  have ha : a = a2 := by
    have e1 : (a * W + b) / W = a := by
      rw [Nat.mul_comm, Nat.mul_add_div (by omega), Nat.div_eq_of_lt hb, Nat.add_zero]
    have e2 : (a2 * W + b2) / W = a2 := by
      rw [Nat.mul_comm, Nat.mul_add_div (by omega), Nat.div_eq_of_lt hb2, Nat.add_zero]
    rw [← e1, ← e2, h]
  subst ha
  exact ⟨rfl, by omega⟩

/-- The byte written at a destination offset by one step of the resampling loop. -/
theorem resampleStep_apply (inData : Buffer) (W H : Nat) (buf : Buffer)
    (row col r c ch : Nat) (hc : c < W) (hch : ch < 3) (hcol : col < 512) :
    resampleStep inData W H buf row col (r * W * 3 + c * 3 + ch) =
      if newRow H row = r ∧ newCol W col = c then
        kernelRGB inData (ORIGINAL_HEIGHT : Int) (ORIGINAL_WIDTH : Int) (row : Int) (col : Int) ch
      else buf (r * W * 3 + c * 3 + ch) := by
  have hnc := newCol_lt W col (by omega) hcol
  unfold resampleStep newIndex
  by_cases hrc : newRow H row = r ∧ newCol W col = c
  · rw [if_pos hrc, hrc.1, hrc.2]
    exact CalculateKernel_apply_out _ _ _ _ _ _ _ _ hch
  · rw [if_neg hrc]
    apply CalculateKernel_apply_other
    by_contra hcon
    apply hrc
    have hj : ∃ ch2, ch2 < 3 ∧
        r * W * 3 + c * 3 + ch = newRow H row * W * 3 + newCol W col * 3 + ch2 :=
      ⟨r * W * 3 + c * 3 + ch - (newRow H row * W * 3 + newCol W col * 3), by omega, by omega⟩
    obtain ⟨ch2, h2, he⟩ := hj
    have := rowMajor_inj W r c (newRow H row) (newCol W col) hc hnc (by omega)
    exact ⟨this.1.symm, this.2.symm⟩

/-- A loop whose last step establishing `P` is followed only by steps that keep
`P` ends in a state with `P`. -/
theorem foldl_preserve {α β : Type} (P : β → Prop) (s : β → α → β) (l : List α) (b : β)
    (hpres : ∀ y, y ∈ l → ∀ b, P b → P (s b y)) (hb : P b) : P (l.foldl s b) := by
  induction l generalizing b with
  | nil => exact hb
  | cons a l ih =>
    rw [List.foldl_cons]
    exact ih (s b a) (fun y hy => hpres y (List.mem_cons_of_mem _ hy))
      (hpres a (List.mem_cons_self _ _) b hb)

theorem foldl_last_writer {α β : Type} (P : β → Prop) (s : β → α → β) (l1 l2 : List α)
    (x : α) (b : β) (hest : ∀ b, P (s b x))
    (hpres : ∀ y, y ∈ l2 → ∀ b, P b → P (s b y)) : P ((l1 ++ x :: l2).foldl s b) := by
  rw [List.foldl_append, List.foldl_cons]
  exact foldl_preserve P s l2 _ hpres (hest _)

/-- A loop in which every step keeps `P` and some step establishes it ends in a
state with `P`. -/
theorem foldl_establish {α β : Type} (P : β → Prop) (s : β → α → β) (l : List α) (b : β)
    (hpres : ∀ y, y ∈ l → ∀ b, P b → P (s b y))
    (hest : ∃ x, x ∈ l ∧ ∀ b, P (s b x)) : P (l.foldl s b) := by
  obtain ⟨x, hx, hP⟩ := hest
  obtain ⟨l1, l2, rfl⟩ := List.append_of_mem hx
  exact foldl_last_writer P s l1 l2 x b hP
    (fun y hy => hpres y (List.mem_append_right _ (List.mem_cons_of_mem _ hy)))

/-- The resampling loop at a destination pixel that is written: when every source
pixel projected onto `(r, c)` yields a byte with `Q`, the byte left at
`(r, c)`, channel `ch`, has `Q`. -/
theorem resampleLoop_written (inData init : Buffer) (W H r c ch : Nat) (hc : c < W)
    (hch : ch < 3) (Q : Nat → Prop)
    (hall : ∀ row, row < 512 → ∀ col, col < 512 → newRow H row = r → newCol W col = c →
      Q (kernelRGB inData (ORIGINAL_HEIGHT : Int) (ORIGINAL_WIDTH : Int) (row : Int) (col : Int) ch))
    (hex : writtenBy W H r c) :
    Q (resampleLoop inData W H init (r * W * 3 + c * 3 + ch)) := by
  obtain ⟨row0, hrow0, col0, hcol0, hr0, hc0⟩ := hex
  have hstep : ∀ row, row < 512 → ∀ col, col < 512 → ∀ buf : Buffer,
      Q (buf (r * W * 3 + c * 3 + ch)) →
      Q (resampleStep inData W H buf row col (r * W * 3 + c * 3 + ch)) := by
    intro row hrow col hcol buf hbuf
    rw [resampleStep_apply inData W H buf row col r c ch hc hch hcol]
    split_ifs with h
    · exact hall row hrow col hcol h.1 h.2
    · exact hbuf
  have hinner : ∀ row, row < 512 → ∀ buf : Buffer, Q (buf (r * W * 3 + c * 3 + ch)) →
      Q ((List.range ORIGINAL_WIDTH).foldl
        (fun buf col => resampleStep inData W H buf row col) buf (r * W * 3 + c * 3 + ch)) := by
    intro row hrow buf hbuf
    apply foldl_preserve (fun b : Buffer => Q (b (r * W * 3 + c * 3 + ch)))
    · intro col hcol b hb
      exact hstep row hrow col (by simpa [ORIGINAL_WIDTH] using hcol) b hb
    · exact hbuf
  unfold resampleLoop
  apply foldl_establish (fun b : Buffer => Q (b (r * W * 3 + c * 3 + ch)))
  · intro row hrow b hb
    exact hinner row (by simpa [ORIGINAL_HEIGHT] using hrow) b hb
  · refine ⟨row0, by simpa using hrow0, ?_⟩
    intro b
    apply foldl_establish (fun b : Buffer => Q (b (r * W * 3 + c * 3 + ch)))
    · intro col hcol b hb
      exact hstep row0 hrow0 col (by simpa [ORIGINAL_WIDTH] using hcol) b hb
    · refine ⟨col0, by simpa using hcol0, ?_⟩
      intro b
      rw [resampleStep_apply inData W H b row0 col0 r c ch hc hch hcol0, if_pos ⟨hr0, hc0⟩]
      exact hall row0 hrow0 col0 hcol0 hr0 hc0


/-! ## C5: destination size equal to the source size -/

/-- C5. With `W1 = H1 = 512` (ratio 1.0), after the resampling loop every
destination pixel `(r, c)` holds, in each channel, exactly the byte that
`CalculateKernel` computes on the source raster at the same coordinate
`(r, c)`, whatever the destination buffer held before. -/
theorem resample_same_size (inData init out : Buffer) (outIndex r c ch : Nat)
    (hr : r < 512) (hc : c < 512) (hch : ch < 3) :
    resampleLoop inData 512 512 init (r * 512 * 3 + c * 3 + ch) =
      CalculateKernel inData (ORIGINAL_HEIGHT : Int) (ORIGINAL_WIDTH : Int) (r : Int) (c : Int)
        out outIndex (outIndex + ch) := by
  rw [CalculateKernel_apply_out _ _ _ _ _ _ _ _ hch]
  apply resampleLoop_written inData init 512 512 r c ch hc hch
    (fun v => v = kernelRGB inData (ORIGINAL_HEIGHT : Int) (ORIGINAL_WIDTH : Int) (r : Int)
      (c : Int) ch)
  · intro row _ col _ h1 h2
    rw [newRow_eq] at h1
    rw [newCol_eq] at h2
    have e1 : row = r := by omega
    have e2 : col = c := by omega
    rw [e1, e2]
  · refine ⟨r, hr, c, hc, ?_, ?_⟩
    · rw [newRow_eq]; omega
    · rw [newCol_eq]; omega

/-- Witness of C5: the destination pixel `(3, 4)`, green channel, of an all-zero
source. -/
theorem resample_same_size_witness :
    resampleLoop (fun _ => 0) 512 512 (fun _ => 9) (3 * 512 * 3 + 4 * 3 + 1) =
      CalculateKernel (fun _ => 0) (ORIGINAL_HEIGHT : Int) (ORIGINAL_WIDTH : Int)
        ((3 : Nat) : Int) ((4 : Nat) : Int) (fun _ => 0) 0 (0 + 1) :=
  resample_same_size (fun _ => 0) (fun _ => 9) (fun _ => 0) 0 3 4 1
    (by decide) (by decide) (by decide)

/-! ## Scaling up by an integer factor, in unbounded arithmetic -/

/-- The loop in unbounded arithmetic, with `W1 = H1 = 512 * k`: every destination
pixel `(r, c)` onto which a source pixel is projected is left with the byte
`CalculateKernel` computes at `(floor(r/k), floor(c/k))`. -/
theorem resampleLoop_integer_upscale (inData init out : Buffer) (outIndex k r c ch : Nat)
    (hk : 1 ≤ k) (hch : ch < 3) (hw : writtenBy (512 * k) (512 * k) r c) :
    resampleLoop inData (512 * k) (512 * k) init (r * (512 * k) * 3 + c * 3 + ch) =
      CalculateKernel inData (ORIGINAL_HEIGHT : Int) (ORIGINAL_WIDTH : Int)
        ((r / k : Nat) : Int) ((c / k : Nat) : Int) out outIndex (outIndex + ch) := by
  have hscale : ∀ x, x * (512 * k) / 512 = x * k := by
    intro x
    rw [Nat.mul_comm 512 k, ← Nat.mul_assoc]
    exact Nat.mul_div_cancel _ (by decide)
  have hc : c < 512 * k := by
    obtain ⟨_, _, col, hcol, _, h2⟩ := hw
    rw [← h2]
    exact newCol_lt (512 * k) col (by omega) hcol
  rw [CalculateKernel_apply_out _ _ _ _ _ _ _ _ hch]
  apply resampleLoop_written inData init (512 * k) (512 * k) r c ch hc hch
    (fun v => v = kernelRGB inData (ORIGINAL_HEIGHT : Int) (ORIGINAL_WIDTH : Int)
      ((r / k : Nat) : Int) ((c / k : Nat) : Int) ch)
  · intro row _ col _ h1 h2
    rw [newRow_eq, hscale] at h1
    rw [newCol_eq, hscale] at h2
    have e1 : r / k = row := by rw [← h1]; exact Nat.mul_div_cancel _ (by omega)
    have e2 : c / k = col := by rw [← h2]; exact Nat.mul_div_cancel _ (by omega)
    rw [e1, e2]
  · exact hw

/-! ## C4: constant source, 256x256 destination, `channelBits = 8` -/

/-- C4. For a 512x512 source raster in which every pixel is `(200,100,50)`, a
requested output of 256x256 and `channelBits = 8` (any mode), the resampling
loop followed by the skipped quantization leaves `(200,100,50)` in every one of
the 256·256 destination pixels, whatever the destination buffer and the
threshold array held before. -/
theorem frame_constant_half_size (expEdge : Nat → Nat → Int) (inData init : Buffer)
    (mode : Int) (intervals : IntTable)
    (himg : ∀ p, p < 512 * 512 →
      inData (3 * p) = 200 ∧ inData (3 * p + 1) = 100 ∧ inData (3 * p + 2) = 50) :
    ∀ r, r < 256 → ∀ c, c < 256 →
      frameData expEdge inData 256 256 8 mode init intervals (r * 256 * 3 + c * 3 + 0) = 200 ∧
      frameData expEdge inData 256 256 8 mode init intervals (r * 256 * 3 + c * 3 + 1) = 100 ∧
      frameData expEdge inData 256 256 8 mode init intervals (r * 256 * 3 + c * 3 + 2) = 50 := by
  intro r hr c hc
  have hstage : frameData expEdge inData 256 256 8 mode init intervals =
      resampleLoop inData 256 256 init := by
    unfold frameData quantizeStage
    rw [if_neg (by decide)]
  have hwr : writtenBy 256 256 r c :=
    ⟨2 * r, by simp only [ORIGINAL_HEIGHT]; omega, 2 * c, by simp only [ORIGINAL_WIDTH]; omega,
      by rw [newRow_eq]; omega, by rw [newCol_eq]; omega⟩
  have hcolour : ∀ k, k < 3 → (fun k => if k = 0 then 200 else if k = 1 then 100 else 50) k < 256 := by
    intro k _
    show (if k = 0 then 200 else if k = 1 then 100 else 50) < 256
    split_ifs <;> decide
  have himg2 : ∀ p, p < 512 * 512 → ∀ k, k < 3 →
      inData (3 * p + k) = (fun k => if k = 0 then 200 else if k = 1 then 100 else 50) k := by
    intro p hp k hk
    obtain ⟨h0, h1, h2⟩ := himg p hp
    have hk3 : k = 0 ∨ k = 1 ∨ k = 2 := by omega
    rcases hk3 with rfl | rfl | rfl
    · exact h0
    · exact h1
    · exact h2
  have hker : ∀ row : Nat, row < 512 → ∀ col : Nat, col < 512 → ∀ k, k < 3 →
      kernelRGB inData (ORIGINAL_HEIGHT : Int) (ORIGINAL_WIDTH : Int) (row : Int) (col : Int) k =
        (fun k => if k = 0 then 200 else if k = 1 then 100 else 50) k := by
    intro row hrow col hcol k hk
    exact kernelRGB_uniform inData 512 512 row col _ hcolour himg2 hrow hcol k hk
  rw [hstage]
  refine ⟨?_, ?_, ?_⟩
  · exact resampleLoop_written inData init 256 256 r c 0 hc (by decide) (fun v => v = 200)
      (fun row hrow col hcol _ _ => hker row hrow col hcol 0 (by decide)) hwr
  · exact resampleLoop_written inData init 256 256 r c 1 hc (by decide) (fun v => v = 100)
      (fun row hrow col hcol _ _ => hker row hrow col hcol 1 (by decide)) hwr
  · exact resampleLoop_written inData init 256 256 r c 2 hc (by decide) (fun v => v = 50)
      (fun row hrow col hcol _ _ => hker row hrow col hcol 2 (by decide)) hwr

/-- Witness of C4: the planar-to-interleaved constant raster
`200,100,50,200,100,50,...` and the destination pixel `(255, 255)`. -/
theorem frame_constant_half_size_witness :
    frameData idealExpEdge (fun i => if i % 3 = 0 then 200 else if i % 3 = 1 then 100 else 50)
        256 256 8 (-1) (fun _ => 7) (fun _ => 0) (255 * 256 * 3 + 255 * 3 + 0) = 200 ∧
    frameData idealExpEdge (fun i => if i % 3 = 0 then 200 else if i % 3 = 1 then 100 else 50)
        256 256 8 (-1) (fun _ => 7) (fun _ => 0) (255 * 256 * 3 + 255 * 3 + 1) = 100 ∧
    frameData idealExpEdge (fun i => if i % 3 = 0 then 200 else if i % 3 = 1 then 100 else 50)
        256 256 8 (-1) (fun _ => 7) (fun _ => 0) (255 * 256 * 3 + 255 * 3 + 2) = 50 :=
  frame_constant_half_size idealExpEdge
    (fun i => if i % 3 = 0 then 200 else if i % 3 = 1 then 100 else 50) (fun _ => 7) (-1)
    (fun _ => 0)
    (by intro p _
        have e0 : (3 * p) % 3 = 0 := by omega
        have e1 : (3 * p + 1) % 3 = 1 := by omega
        have e2 : (3 * p + 2) % 3 = 2 := by omega
        simp only [e0, e1, e2]
        decide)
    255 (by decide) 255 (by decide)


/-! ## The pivot-weighted table in closed form -/

theorem scaleCeil_zero (m : Int) : scaleCeil 0 m = 0 := by
  simp [scaleCeil]

theorem scaleCeil_mono (x y m : Int) (hm : 0 ≤ m) (hxy : x ≤ y) :
    scaleCeil x m ≤ scaleCeil y m := by
  unfold scaleCeil
  apply Int.ceil_mono
  have hm2 : (0 : ℚ) ≤ (m : ℚ) / 256 := by
    have : (0 : ℚ) ≤ (m : ℚ) := by exact_mod_cast hm
    positivity
  have hxy2 : (x : ℚ) ≤ (y : ℚ) := by exact_mod_cast hxy
  exact mul_le_mul_of_nonneg_right hxy2 hm2

theorem scaleCeil_le (x m : Int) (hm : 0 ≤ m) (hx : x ≤ 256) : scaleCeil x m ≤ m := by
  unfold scaleCeil
  rw [Int.ceil_le]
  have hm2 : (0 : ℚ) ≤ (m : ℚ) := by exact_mod_cast hm
  have hx2 : (x : ℚ) ≤ 256 := by exact_mod_cast hx
  have : (x : ℚ) * ((m : ℚ) / 256) ≤ 256 * ((m : ℚ) / 256) :=
    mul_le_mul_of_nonneg_right hx2 (by positivity)
  calc (x : ℚ) * ((m : ℚ) / 256) ≤ 256 * ((m : ℚ) / 256) := this
    _ = (m : ℚ) := by ring

theorem scaleCeil_pos (x m : Int) (hm : 1 ≤ m) (hx : 1 ≤ x) : 1 ≤ scaleCeil x m := by
  unfold scaleCeil
  have hm2 : (0 : ℚ) < (m : ℚ) := by exact_mod_cast (show (0 : Int) < m by omega)
  have hx2 : (0 : ℚ) < (x : ℚ) := by exact_mod_cast (show (0 : Int) < x by omega)
  have : 0 < Int.ceil ((x : ℚ) * ((m : ℚ) / 256)) := by
    rw [Int.ceil_pos]
    positivity
  omega

theorem scaleCeil_nonneg (x m : Int) (hm : 0 ≤ m) (hx : 0 ≤ x) : 0 ≤ scaleCeil x m := by
  have := scaleCeil_mono 0 x m hm hx
  rw [scaleCeil_zero] at this
  exact this

theorem scaleCeil_full (m : Int) : scaleCeil 256 m = m := by
  unfold scaleCeil
  have : ((256 : Int) : ℚ) * ((m : ℚ) / 256) = ((m : Int) : ℚ) := by push_cast; ring
  rw [this, Int.ceil_intCast]

/-- The first pivot loop as two independent loops of stores. -/
theorem pivotStep1_fold (expEdge : Nat → Int) (mode : Int) (l : List Nat)
    (st : IntTable × IntTable) :
    l.foldl (pivotStep1 expEdge mode) st =
      (l.foldl (fun t i => Function.update t i (expEdge i)) st.1,
        l.foldl (fun t i => Function.update t i (scaleCeil (expEdge i) mode)) st.2) := by
  induction l generalizing st with
  | nil => rfl
  | cons a l ih =>
    rw [List.foldl_cons, ih]
    simp only [List.foldl_cons, pivotStep1, Function.update_same]

/-- The array `lb` after the first pivot loop. -/
theorem pivotLoop1_lb (expEdge : Nat → Int) (numBuckets : Nat) (mode : Int) (i : Nat) :
    (pivotLoop1 expEdge numBuckets mode).1 i =
      if 1 ≤ i ∧ i ≤ numBuckets then expEdge i else 0 := by
  unfold pivotLoop1
  rw [pivotStep1_fold]
  dsimp only
  rw [foldl_update_apply]
  have hiff : i ∈ List.range' 1 numBuckets ↔ (1 ≤ i ∧ i ≤ numBuckets) := by
    rw [List.mem_range']
    constructor
    · rintro ⟨k, hk, rfl⟩; omega
    · rintro ⟨h1, h2⟩; exact ⟨i - 1, by omega, by omega⟩
  by_cases h : 1 ≤ i ∧ i ≤ numBuckets
  · rw [if_pos (hiff.2 h), if_pos h]
  · rw [if_neg (fun hh => h (hiff.1 hh)), if_neg h]
    by_cases h0 : i = 0
    · subst h0; simp
    · simp [Function.update_noteq h0]

/-- The array `slb` after the first pivot loop. -/
theorem pivotLoop1_slb (expEdge : Nat → Int) (numBuckets : Nat) (mode : Int) (i : Nat) :
    (pivotLoop1 expEdge numBuckets mode).2 i =
      if 1 ≤ i ∧ i ≤ numBuckets then scaleCeil (expEdge i) mode else 0 := by
  unfold pivotLoop1
  rw [pivotStep1_fold]
  dsimp only
  rw [foldl_update_apply]
  have hiff : i ∈ List.range' 1 numBuckets ↔ (1 ≤ i ∧ i ≤ numBuckets) := by
    rw [List.mem_range']
    constructor
    · rintro ⟨k, hk, rfl⟩; omega
    · rintro ⟨h1, h2⟩; exact ⟨i - 1, by omega, by omega⟩
  by_cases h : 1 ≤ i ∧ i ≤ numBuckets
  · rw [if_pos (hiff.2 h), if_pos h]
  · rw [if_neg (fun hh => h (hiff.1 hh)), if_neg h]
    by_cases h0 : i = 0
    · subst h0; simp
    · simp [Function.update_noteq h0]

/-- The array `intervals` through the second pivot loop is a loop of stores. -/
theorem pivotStep2_fold (lb slb : IntTable) (numBuckets : Nat) (mode shift : Int)
    (l : List Nat) (st : PivotState) :
    (l.foldl (pivotStep2 lb slb numBuckets mode shift) st).intervals =
      l.foldl (fun t i => Function.update t i
        ((slb i - scaleCeil (lb (numBuckets - i)) (256 - mode)) - shift)) st.intervals := by
  induction l generalizing st with
  | nil => rfl
  | cons a l ih =>
    rw [List.foldl_cons, ih]
    simp only [List.foldl_cons, pivotStep2, Function.update_same]

/-- The entries `lb[0..numBuckets]` as a function of the truncated exponentials. -/
theorem pivotIntervals_apply (expEdge : Nat → Int) (numBuckets : Nat) (mode : Int)
    (g : IntTable) (i : Nat) :
    pivotIntervals expEdge numBuckets mode g i =
      if i ≤ numBuckets then
        scaleCeil ((pivotLoop1 expEdge numBuckets (255 - mode)).1 i) (255 - mode)
          - scaleCeil ((pivotLoop1 expEdge numBuckets (255 - mode)).1 (numBuckets - i))
              (256 - (255 - mode))
          + scaleCeil ((pivotLoop1 expEdge numBuckets (255 - mode)).1 numBuckets)
              (256 - (255 - mode))
      else g i := by
  unfold pivotIntervals
  rw [pivotStep2_fold]
  dsimp only
  rw [foldl_update_apply]
  have hiff : i ∈ List.range' 1 numBuckets ↔ (1 ≤ i ∧ i ≤ numBuckets) := by
    rw [List.mem_range']
    constructor
    · rintro ⟨k, hk, rfl⟩; omega
    · rintro ⟨h1, h2⟩; exact ⟨i - 1, by omega, by omega⟩
  have hslb0 : (pivotLoop1 expEdge numBuckets (255 - mode)).2 0 = 0 := by
    rw [pivotLoop1_slb]; simp
  have hlb0 : (pivotLoop1 expEdge numBuckets (255 - mode)).1 0 = 0 := by
    rw [pivotLoop1_lb]; simp
  by_cases h : 1 ≤ i ∧ i ≤ numBuckets
  · rw [if_pos (hiff.2 h), if_pos h.2, hslb0, Function.update_same, Function.update_same]
    have hs : (pivotLoop1 expEdge numBuckets (255 - mode)).2 i =
        scaleCeil ((pivotLoop1 expEdge numBuckets (255 - mode)).1 i) (255 - mode) := by
      rw [pivotLoop1_slb, pivotLoop1_lb, if_pos h, if_pos h]
    rw [hs]
    ring
  · rw [if_neg (fun hh => h (hiff.1 hh))]
    by_cases h0 : i = 0
    · subst h0
      rw [if_pos (Nat.zero_le _), Function.update_same, hslb0, hlb0, scaleCeil_zero,
        Function.update_same]
      simp
    · rw [if_neg (by omega), Function.update_noteq h0]


/-- The exact truncated exponentials satisfy what the construction needs. -/
theorem idealExpEdge_ok (numBuckets : Nat) :
    ExpEdgeOk (idealExpEdge numBuckets) numBuckets := by
  refine ⟨?_, ?_, ?_⟩
  · have : 1 ≤ Nat.findGreatest (fun k => k ^ numBuckets ≤ 256 ^ 1) 256 :=
      Nat.le_findGreatest (by decide) (by simp)
    unfold idealExpEdge
    exact_mod_cast this
  · intro i _ _
    unfold idealExpEdge
    have : Nat.findGreatest (fun k => k ^ numBuckets ≤ 256 ^ i) 256 ≤
        Nat.findGreatest (fun k => k ^ numBuckets ≤ 256 ^ (i + 1)) 256 := by
      apply Nat.findGreatest_mono_left
      intro k hk
      exact le_trans hk (Nat.pow_le_pow_right (by decide) (Nat.le_succ i))
    exact_mod_cast this
  · unfold idealExpEdge
    have : Nat.findGreatest (fun k => k ^ numBuckets ≤ 256 ^ numBuckets) 256 ≤ 256 :=
      Nat.findGreatest_le 256
    exact_mod_cast this

/-- A table that does not decrease from one index to the next does not decrease
over any range of indices. -/
theorem table_mono_of_step (t : IntTable) (n : Nat)
    (hstep : ∀ i, i < n → t i ≤ t (i + 1)) :
    ∀ a b, a ≤ b → b ≤ n → t a ≤ t b := by
  intro a b hab
  induction b with
  | zero =>
    intro _
    have : a = 0 := by omega
    rw [this]
  | succ b ih =>
    intro hb
    by_cases h : a = b + 1
    · rw [h]
    · exact le_trans (ih (by omega) (by omega)) (hstep b (by omega))

/-- The array `lb` does not decrease on `0 .. numBuckets`. -/
theorem pivot_lb_step (expEdge : Nat → Int) (numBuckets : Nat) (mode : Int)
    (hE : ExpEdgeOk expEdge numBuckets) :
    ∀ i, i < numBuckets →
      (pivotLoop1 expEdge numBuckets mode).1 i ≤ (pivotLoop1 expEdge numBuckets mode).1 (i + 1) := by
  intro i hi
  obtain ⟨h1, hmono, _⟩ := hE
  rw [pivotLoop1_lb, pivotLoop1_lb, if_pos (by omega : 1 ≤ i + 1 ∧ i + 1 ≤ numBuckets)]
  by_cases h0 : i = 0
  · subst h0
    rw [if_neg (by omega)]
    show (0 : Int) ≤ expEdge 1
    omega
  · rw [if_pos (by omega)]
    exact hmono i hi (by omega)

theorem pivot_lb_mono (expEdge : Nat → Int) (numBuckets : Nat) (mode : Int)
    (hE : ExpEdgeOk expEdge numBuckets) :
    ∀ a b, a ≤ b → b ≤ numBuckets →
      (pivotLoop1 expEdge numBuckets mode).1 a ≤ (pivotLoop1 expEdge numBuckets mode).1 b :=
  table_mono_of_step _ numBuckets (pivot_lb_step expEdge numBuckets mode hE)

theorem pivot_lb_zero (expEdge : Nat → Int) (numBuckets : Nat) (mode : Int) :
    (pivotLoop1 expEdge numBuckets mode).1 0 = 0 := by
  rw [pivotLoop1_lb]; simp

theorem pivot_lb_le (expEdge : Nat → Int) (numBuckets : Nat) (mode : Int)
    (hE : ExpEdgeOk expEdge numBuckets) (hn : 1 ≤ numBuckets) :
    ∀ i, i ≤ numBuckets → (pivotLoop1 expEdge numBuckets mode).1 i ≤ 256 := by
  intro i hi
  have h := pivot_lb_mono expEdge numBuckets mode hE i numBuckets hi (le_refl _)
  have hlast : (pivotLoop1 expEdge numBuckets mode).1 numBuckets ≤ 256 := by
    rw [pivotLoop1_lb, if_pos ⟨hn, le_refl _⟩]
    exact hE.2.2
  omega

theorem pivot_lb_pos (expEdge : Nat → Int) (numBuckets : Nat) (mode : Int)
    (hE : ExpEdgeOk expEdge numBuckets) :
    ∀ i, 1 ≤ i → i ≤ numBuckets → 1 ≤ (pivotLoop1 expEdge numBuckets mode).1 i := by
  intro i h1 hi
  have h := pivot_lb_mono expEdge numBuckets mode hE 1 i h1 hi
  have hfirst : (pivotLoop1 expEdge numBuckets mode).1 1 = expEdge 1 := by
    rw [pivotLoop1_lb, if_pos ⟨le_refl _, by omega⟩]
  have := hE.1
  omega

/-- The pivot-weighted table starts at 0. -/
theorem pivotIntervals_zero (expEdge : Nat → Int) (numBuckets : Nat) (mode : Int)
    (g : IntTable) : pivotIntervals expEdge numBuckets mode g 0 = 0 := by
  rw [pivotIntervals_apply, if_pos (Nat.zero_le _), pivot_lb_zero, scaleCeil_zero]
  simp

/-- The pivot-weighted table does not decrease on `0 .. numBuckets`. -/
theorem pivotIntervals_step (expEdge : Nat → Int) (numBuckets : Nat) (mode : Int)
    (g : IntTable) (hE : ExpEdgeOk expEdge numBuckets) (hm0 : 0 ≤ mode) (hm1 : mode ≤ 255) :
    ∀ i, i < numBuckets →
      pivotIntervals expEdge numBuckets mode g i ≤
        pivotIntervals expEdge numBuckets mode g (i + 1) := by
  intro i hi
  rw [pivotIntervals_apply, pivotIntervals_apply, if_pos (by omega), if_pos (by omega)]
  have h1 := scaleCeil_mono _ _ (255 - mode) (by omega)
    (pivot_lb_step expEdge numBuckets (255 - mode) hE i hi)
  have h2 := scaleCeil_mono _ _ (256 - (255 - mode)) (by omega)
    (pivot_lb_mono expEdge numBuckets (255 - mode) hE (numBuckets - (i + 1)) (numBuckets - i)
      (by omega) (by omega))
  omega

/-- The pivot-weighted table: the entries `0 .. numBuckets-1` lie in `[0,255]`
and the entry `numBuckets` lies in `[0,256]`. -/
theorem pivotIntervals_range (expEdge : Nat → Int) (numBuckets : Nat) (mode : Int)
    (g : IntTable) (hE : ExpEdgeOk expEdge numBuckets) (hn : 1 ≤ numBuckets)
    (hm0 : 0 ≤ mode) (hm1 : mode ≤ 255) :
    (∀ i, i < numBuckets →
      0 ≤ pivotIntervals expEdge numBuckets mode g i ∧
        pivotIntervals expEdge numBuckets mode g i ≤ 255) ∧
    (0 ≤ pivotIntervals expEdge numBuckets mode g numBuckets ∧
      pivotIntervals expEdge numBuckets mode g numBuckets ≤ 256) := by
  have hmono := table_mono_of_step _ numBuckets
    (pivotIntervals_step expEdge numBuckets mode g hE hm0 hm1)
  have hz := pivotIntervals_zero expEdge numBuckets mode g
  have hnonneg : ∀ i, i ≤ numBuckets → 0 ≤ pivotIntervals expEdge numBuckets mode g i := by
    intro i hi
    have := hmono 0 i (Nat.zero_le _) hi
    omega
  have hup : ∀ i, i ≤ numBuckets →
      scaleCeil ((pivotLoop1 expEdge numBuckets (255 - mode)).1 i) (255 - mode) ≤ 255 - mode :=
    fun i hi => scaleCeil_le _ _ (by omega) (pivot_lb_le expEdge numBuckets _ hE hn i hi)
  have hlast : scaleCeil ((pivotLoop1 expEdge numBuckets (255 - mode)).1 numBuckets)
      (256 - (255 - mode)) ≤ 256 - (255 - mode) :=
    scaleCeil_le _ _ (by omega) (pivot_lb_le expEdge numBuckets _ hE hn numBuckets (le_refl _))
  refine ⟨fun i hi => ⟨hnonneg i (by omega), ?_⟩, hnonneg numBuckets (le_refl _), ?_⟩
  · rw [pivotIntervals_apply, if_pos (by omega)]
    have h1 := hup i (by omega)
    have h2 := scaleCeil_pos _ (256 - (255 - mode)) (by omega)
      (pivot_lb_pos expEdge numBuckets (255 - mode) hE (numBuckets - i) (by omega) (by omega))
    omega
  · rw [pivotIntervals_apply, if_pos (le_refl _)]
    have h1 := hup numBuckets (le_refl _)
    have h2 := scaleCeil_nonneg _ (256 - (255 - mode)) (by omega)
      (le_trans (by decide : (0 : Int) ≤ 1)
        (pivot_lb_pos expEdge numBuckets (255 - mode) hE (numBuckets - numBuckets + 1)
          (by omega) (by omega)))
    have h3 : numBuckets - numBuckets = 0 := Nat.sub_self _
    rw [h3, pivot_lb_zero, scaleCeil_zero]
    omega

/-- The uniform table does not decrease and its entries lie in `[0,255]`. -/
theorem uniformIntervals_props (channelBits : Nat) (h : channelBits ≤ 8) (g : IntTable) :
    (∀ i, i + 1 < numBucketsOf channelBits →
      uniformIntervals (numBucketsOf channelBits) g i ≤
        uniformIntervals (numBucketsOf channelBits) g (i + 1)) ∧
    (∀ i, i < numBucketsOf channelBits →
      0 ≤ uniformIntervals (numBucketsOf channelBits) g i ∧
        uniformIntervals (numBucketsOf channelBits) g i ≤ 255) := by
  have hprod : numBucketsOf channelBits * 2 ^ (8 - channelBits) = 256 := by
    rw [numBucketsOf_eq, ← pow_add, Nat.add_sub_cancel' h]
    rfl
  have hpos : 1 ≤ 2 ^ (8 - channelBits) := Nat.one_le_two_pow
  constructor
  · intro i hi
    rw [uniformIntervals_apply _ h, uniformIntervals_apply _ h, if_pos (by omega), if_pos hi]
    exact_mod_cast Nat.mul_le_mul_right _ (Nat.le_succ i)
  · intro i hi
    rw [uniformIntervals_apply _ h, if_pos hi]
    have : i * 2 ^ (8 - channelBits) < 256 := by
      rw [← hprod]
      exact Nat.mul_lt_mul_of_lt_of_le hi (le_refl _) (by omega)
    constructor
    · exact_mod_cast Nat.zero_le _
    · have h2 : i * 2 ^ (8 - channelBits) ≤ 255 := by omega
      exact_mod_cast h2


/-- The last pivot entry `intervals[numBuckets]` is 256 when the last truncated
exponential is 256, and also when it is 255 and `mode ≤ 254`. -/
theorem pivotIntervals_last (expEdge : Nat → Int) (numBuckets : Nat) (mode : Int)
    (g : IntTable) (hn : 1 ≤ numBuckets) (hm0 : 0 ≤ mode) (hm1 : mode ≤ 255)
    (hlast : expEdge numBuckets = 256 ∨ (expEdge numBuckets = 255 ∧ mode ≤ 254)) :
    pivotIntervals expEdge numBuckets mode g numBuckets = 256 := by
  have h255 : ∀ m : Int, 0 ≤ m → m ≤ 255 → scaleCeil 255 m = m := by
    intro m h0 h1
    unfold scaleCeil
    rw [Int.ceil_eq_iff]
    have a0 : (0 : ℚ) ≤ (m : ℚ) := by exact_mod_cast h0
    have a1 : (m : ℚ) ≤ 255 := by exact_mod_cast h1
    constructor
    · push_cast; linarith
    · push_cast; linarith
  rw [pivotIntervals_apply, if_pos (le_refl _), Nat.sub_self, pivot_lb_zero, scaleCeil_zero,
    pivotLoop1_lb, if_pos ⟨hn, le_refl _⟩]
  rcases hlast with h | ⟨h, hm⟩
  · rw [h, scaleCeil_full, scaleCeil_full]; ring
  · rw [h, h255 _ (by omega) (by omega), h255 _ (by omega) (by omega)]; ring

/-! ## C9: the pivot-weighted table is monotone -/

/-- C9. For `channelBits` in `[1,7]` and `mode` in `[0,255]` the pivot-weighted
construction writes exactly the `numBuckets+1 = 2^channelBits + 1` entries
`intervals[0..numBuckets]` (they do not depend on what the array held before,
every entry beyond is left as it was), `intervals[0] = 0`, and
`intervals[i] ≤ intervals[i+1]` for every `i` in `[0, numBuckets-1]`.  The
truncated exponentials `(int) exp(i * d)` enter through `expEdge`, of which only
`ExpEdgeOk` is used. -/
theorem pivot_table_monotone (expEdge : Nat → Nat → Int) (channelBits : Nat) (mode : Int)
    (g : IntTable) (h1 : 1 ≤ channelBits) (h7 : channelBits ≤ 7) (hm0 : 0 ≤ mode)
    (hm1 : mode ≤ 255)
    (hE : ExpEdgeOk (expEdge (numBucketsOf channelBits)) (numBucketsOf channelBits)) :
    numBucketsOf channelBits + 1 = 2 ^ channelBits + 1 ∧
    buildIntervals expEdge (numBucketsOf channelBits) mode g 0 = 0 ∧
    (∀ i, i < numBucketsOf channelBits →
      buildIntervals expEdge (numBucketsOf channelBits) mode g i ≤
        buildIntervals expEdge (numBucketsOf channelBits) mode g (i + 1)) ∧
    (∀ j, numBucketsOf channelBits < j →
      buildIntervals expEdge (numBucketsOf channelBits) mode g j = g j) ∧
    (∀ (g2 : IntTable) (i : Nat), i ≤ numBucketsOf channelBits →
      buildIntervals expEdge (numBucketsOf channelBits) mode g i =
        buildIntervals expEdge (numBucketsOf channelBits) mode g2 i) := by
  have hmode : ¬ mode = -1 := by omega
  unfold buildIntervals
  simp only [if_neg hmode]
  refine ⟨by rw [numBucketsOf_eq], pivotIntervals_zero _ _ _ _,
    pivotIntervals_step _ _ _ _ hE hm0 hm1, ?_, ?_⟩
  · intro j hj
    rw [pivotIntervals_apply, if_neg (by omega)]
  · intro g2 i hi
    rw [pivotIntervals_apply, pivotIntervals_apply, if_pos hi, if_pos hi]

/-- Witness of C9: one bit per channel, pivot 0, the exact exponentials. -/
theorem pivot_table_monotone_witness :
    numBucketsOf 1 + 1 = 2 ^ 1 + 1 ∧
    buildIntervals idealExpEdge (numBucketsOf 1) 0 (fun _ => 0) 0 = 0 ∧
    (∀ i, i < numBucketsOf 1 →
      buildIntervals idealExpEdge (numBucketsOf 1) 0 (fun _ => 0) i ≤
        buildIntervals idealExpEdge (numBucketsOf 1) 0 (fun _ => 0) (i + 1)) ∧
    (∀ j, numBucketsOf 1 < j →
      buildIntervals idealExpEdge (numBucketsOf 1) 0 (fun _ => 0) j = (fun _ => 0) j) ∧
    (∀ (g2 : IntTable) (i : Nat), i ≤ numBucketsOf 1 →
      buildIntervals idealExpEdge (numBucketsOf 1) 0 (fun _ => 0) i =
        buildIntervals idealExpEdge (numBucketsOf 1) 0 g2 i) :=
  pivot_table_monotone idealExpEdge 1 0 (fun _ => 0) (by decide) (by decide) (by decide)
    (by decide) (idealExpEdge_ok _)

/-! ## C10: the range of the thresholds -/

/-- C10 (as amended). For `channelBits` in `[1,7]` and a valid `mode`, every
threshold written at the indices `0..numBuckets-1` (under both policies) is an
integer in `[0,255]`, and the additional last entry `intervals[numBuckets]`
written under the pivot-weighted policy is an integer in `[0,256]`. -/
theorem table_entries_range (expEdge : Nat → Nat → Int) (channelBits : Nat) (mode : Int)
    (g : IntTable) (h1 : 1 ≤ channelBits) (h7 : channelBits ≤ 7)
    (hmode : mode = -1 ∨ (0 ≤ mode ∧ mode ≤ 255))
    (hE : mode ≠ -1 →
      ExpEdgeOk (expEdge (numBucketsOf channelBits)) (numBucketsOf channelBits)) :
    (∀ i, i < numBucketsOf channelBits →
      0 ≤ buildIntervals expEdge (numBucketsOf channelBits) mode g i ∧
        buildIntervals expEdge (numBucketsOf channelBits) mode g i ≤ 255) ∧
    (mode ≠ -1 →
      0 ≤ buildIntervals expEdge (numBucketsOf channelBits) mode g (numBucketsOf channelBits) ∧
        buildIntervals expEdge (numBucketsOf channelBits) mode g (numBucketsOf channelBits)
          ≤ 256) := by
  unfold buildIntervals
  by_cases hu : mode = -1
  · simp only [if_pos hu]
    exact ⟨(uniformIntervals_props channelBits (by omega) g).2, fun h => absurd hu h⟩
  · simp only [if_neg hu]
    have hm : 0 ≤ mode ∧ mode ≤ 255 := by
      rcases hmode with h | h
      · exact absurd h hu
      · exact h
    have := pivotIntervals_range (expEdge (numBucketsOf channelBits)) (numBucketsOf channelBits)
      mode g (hE hu) (numBucketsOf_pos _) hm.1 hm.2
    exact ⟨this.1, fun _ => this.2⟩

/-- Witness of C10 as amended: two bits per channel, pivot 255, the exact
exponentials. -/
theorem table_entries_range_witness :
    (∀ i, i < numBucketsOf 2 →
      0 ≤ buildIntervals idealExpEdge (numBucketsOf 2) 255 (fun _ => 0) i ∧
        buildIntervals idealExpEdge (numBucketsOf 2) 255 (fun _ => 0) i ≤ 255) ∧
    ((255 : Int) ≠ -1 →
      0 ≤ buildIntervals idealExpEdge (numBucketsOf 2) 255 (fun _ => 0) (numBucketsOf 2) ∧
        buildIntervals idealExpEdge (numBucketsOf 2) 255 (fun _ => 0) (numBucketsOf 2) ≤ 256) :=
  table_entries_range idealExpEdge 2 255 (fun _ => 0) (by decide) (by decide)
    (Or.inr ⟨by decide, by decide⟩) (fun _ => idealExpEdge_ok _)

/-- C10 fails as stated: with `channelBits = 1` and `mode = 0` the pivot-weighted
construction writes `intervals[numBuckets] = intervals[2] = 256`, which is not
in `[0,255]`. -/
theorem table_entries_range_counterexample :
    buildIntervals idealExpEdge (numBucketsOf 1) 0 (fun _ => 0) (numBucketsOf 1) = 256 ∧
      ¬ (buildIntervals idealExpEdge (numBucketsOf 1) 0 (fun _ => 0) (numBucketsOf 1) ≤ 255) := by
  have hlast : idealExpEdge (numBucketsOf 1) (numBucketsOf 1) = 256 := by
    unfold idealExpEdge
    have : Nat.findGreatest (fun k => k ^ numBucketsOf 1 ≤ 256 ^ numBucketsOf 1) 256 = 256 := by
      rw [Nat.findGreatest_eq_iff]
      refine ⟨le_refl _, fun _ => le_refl _, ?_⟩
      intro n hn hn2
      omega
    rw [this]
    rfl
  have h : buildIntervals idealExpEdge (numBucketsOf 1) 0 (fun _ => 0) (numBucketsOf 1) = 256 := by
    unfold buildIntervals
    rw [if_neg (by decide)]
    exact pivotIntervals_last _ _ 0 _ (numBucketsOf_pos 1) (by decide) (by decide) (Or.inl hlast)
  refine ⟨h, ?_⟩
  rw [h]
  decide


/-! ## C3: quantization is idempotent -/

/-- The value assigned by the loop is one of the used table entries. -/
theorem quantizeLoop_mem (v : Int) (t : IntTable) (n : Nat) (hn : 1 ≤ n) :
    ∀ (k i : Nat), i + k = n - 1 → ∃ j, j < n ∧ quantizeLoop v t n i k = t j := by
  intro k
  induction k with
  | zero => intro i _; exact ⟨n - 1, by omega, rfl⟩
  | succ k ih =>
    intro i hik
    rw [quantizeLoop]
    split_ifs
    · exact ⟨i, by omega, rfl⟩
    · exact ⟨i + 1, by omega, rfl⟩
    · exact ih (i + 1) (by omega)

/-- The loop depends only on the used entries `t[0..n-1]`. -/
theorem quantizeLoop_congr (v : Int) (t t2 : IntTable) (n : Nat) (hn : 1 ≤ n)
    (h : ∀ i, i < n → t i = t2 i) :
    ∀ (k i : Nat), i + k = n - 1 → quantizeLoop v t n i k = quantizeLoop v t2 n i k := by
  intro k
  induction k with
  | zero => intro i _; exact h (n - 1) (by omega)
  | succ k ih =>
    intro i hik
    rw [quantizeLoop, quantizeLoop, h i (by omega), h (i + 1) (by omega),
      ih (i + 1) (by omega)]

/-- On a non-decreasing table of non-negative entries, a used entry is assigned
to itself. -/
theorem quantizeLoop_fixed (t : IntTable) (n j : Nat) (hj : j < n)
    (hmono : ∀ a b, a ≤ b → b ≤ n - 1 → t a ≤ t b) (hnn : ∀ i, i < n → 0 ≤ t i) :
    ∀ (k i : Nat), i + k = n - 1 → i ≤ j → quantizeLoop (t j) t n i k = t j := by
  intro k
  induction k with
  | zero =>
    intro i hik hij
    have : j = n - 1 := by omega
    rw [quantizeLoop, this]
  | succ k ih =>
    intro i hik hij
    rw [quantizeLoop]
    have hsum : 0 ≤ t i + t (i + 1) := by
      have := hnn i (by omega)
      have := hnn (i + 1) (by omega)
      omega
    by_cases hmatch : t i ≤ t j ∧ t j ≤ t (i + 1)
    · rw [if_pos hmatch]
      have hcase : i = j ∨ t (i + 1) ≤ t j := by
        by_cases hij2 : i = j
        · exact Or.inl hij2
        · exact Or.inr (hmono (i + 1) j (by omega) (by omega))
      by_cases htest : t j ≤ Int.tdiv (t i + t (i + 1)) 2
      · rw [if_pos htest]
        have := (midpoint_test _ _ _ hsum).1 htest
        rcases hcase with h | h
        · rw [h]
        · omega
      · rw [if_neg htest]
        have hnt : ¬ (t j - t i ≤ t (i + 1) - t j) :=
          fun hh => htest ((midpoint_test _ _ _ hsum).2 hh)
        rcases hcase with h | h
        · subst h; omega
        · omega
    · rw [if_neg hmatch]
      have hne : i ≠ j := by
        intro hij2
        subst hij2
        exact hmatch ⟨le_refl _, hmono i (i + 1) (by omega) (by omega)⟩
      exact ih (i + 1) (by omega) (by omega)

/-- The byte map of `QuantizePixel` is idempotent on every non-decreasing table
whose used entries are bytes. -/
theorem quantizeValue_idem (t : IntTable) (n : Nat) (hn : 1 ≤ n)
    (hstep : ∀ i, i + 1 < n → t i ≤ t (i + 1))
    (hrange : ∀ i, i < n → 0 ≤ t i ∧ t i ≤ 255) (v : Nat) :
    toUChar (quantizeValue (toUChar (quantizeValue v t n)) t n) =
      toUChar (quantizeValue v t n) := by
  obtain ⟨j, hj, hv⟩ := quantizeLoop_mem (v : Int) t n hn (n - 1) 0 (by omega)
  have hmono : ∀ a b, a ≤ b → b ≤ n - 1 → t a ≤ t b :=
    table_mono_of_step t (n - 1) (fun i hi => hstep i (by omega))
  have hbyte := toUChar_of_byte (hrange j hj).1 (hrange j hj).2
  have hfix := quantizeLoop_fixed t n j hj hmono (fun i hi => (hrange i hi).1) (n - 1) 0
    (by omega) (Nat.zero_le _)
  unfold quantizeValue
  rw [hv, hbyte, hfix]

theorem isIterated_comp (q : Nat → Nat) (f g : Buffer → Buffer) (hf : IsIterated q f)
    (hg : IsIterated q g) : IsIterated q (fun d => g (f d)) := by
  obtain ⟨kf, hkf⟩ := hf
  obtain ⟨kg, hkg⟩ := hg
  refine ⟨fun j => kg j + kf j, fun d j => ?_⟩
  show g (f d) j = q^[kg j + kf j] (d j)
  rw [hkg, hkf, Function.iterate_add_apply]

theorem isIterated_foldl {α : Type} (q : Nat → Nat) (s : Buffer → α → Buffer) (l : List α)
    (h : ∀ x, x ∈ l → IsIterated q (fun d => s d x)) :
    IsIterated q (fun d => l.foldl s d) := by
  induction l with
  | nil => exact ⟨fun _ => 0, fun _ _ => rfl⟩
  | cons a l ih =>
    have h1 := h a (List.mem_cons_self _ _)
    have h2 := ih (fun x hx => h x (List.mem_cons_of_mem _ hx))
    exact isIterated_comp q _ _ h1 h2

theorem isIterated_QuantizePixel (t : IntTable) (n idx : Nat) :
    IsIterated (fun v => toUChar (quantizeValue v t n))
      (fun d => QuantizePixel d idx t n) := by
  refine ⟨fun j => if j = idx then 1 else 0, fun d j => ?_⟩
  unfold QuantizePixel
  by_cases h : j = idx
  · subst h
    simp
  · simp [Function.update_noteq h, h]

theorem isIterated_quantizePass (t : IntTable) (n W H : Nat) :
    IsIterated (fun v => toUChar (quantizeValue v t n))
      (fun d => quantizePass d W H t n) := by
  unfold quantizePass
  apply isIterated_foldl
  intro row _
  apply isIterated_foldl
  intro col _
  unfold quantizeCell
  apply isIterated_foldl
  intro c _
  exact isIterated_QuantizePixel t n _

/-- A transformation by iterates of an idempotent byte map is idempotent. -/
theorem isIterated_idem (q : Nat → Nat) (f : Buffer → Buffer) (hf : IsIterated q f)
    (hq : ∀ x, q (q x) = q x) (d : Buffer) : f (f d) = f d := by
  obtain ⟨k, hk⟩ := hf
  have hiter : ∀ (m : Nat) (x : Nat), q^[m + 1] x = q x := by
    intro m
    induction m with
    | zero => intro x; rfl
    | succ m ih =>
      intro x
      rw [Function.iterate_succ_apply, ih, hq]
  funext j
  rw [hk (f d) j, hk d j]
  cases hkj : k j with
  | zero => rfl
  | succ m => rw [hiter, hiter, hq]

/-- The pass depends only on the used entries of the table. -/
theorem quantizePass_congr (t t2 : IntTable) (n : Nat) (hn : 1 ≤ n)
    (h : ∀ i, i < n → t i = t2 i) (d : Buffer) (W H : Nat) :
    quantizePass d W H t n = quantizePass d W H t2 n := by
  have hQ : ∀ (d : Buffer) (idx : Nat), QuantizePixel d idx t n = QuantizePixel d idx t2 n := by
    intro d idx
    unfold QuantizePixel quantizeValue
    rw [quantizeLoop_congr _ t t2 n hn h (n - 1) 0 (by omega)]
  unfold quantizePass quantizeCell
  simp only [hQ]

/-- The table built for a valid `(channelBits, mode)` does not decrease on its
used entries, which are bytes, and these do not depend on what the array held
before. -/
theorem buildIntervals_props (expEdge : Nat → Nat → Int) (channelBits : Nat) (mode : Int)
    (g : IntTable) (h8 : channelBits ≤ 8)
    (hmode : mode = -1 ∨ (0 ≤ mode ∧ mode ≤ 255))
    (hE : mode ≠ -1 →
      ExpEdgeOk (expEdge (numBucketsOf channelBits)) (numBucketsOf channelBits)) :
    (∀ i, i + 1 < numBucketsOf channelBits →
      buildIntervals expEdge (numBucketsOf channelBits) mode g i ≤
        buildIntervals expEdge (numBucketsOf channelBits) mode g (i + 1)) ∧
    (∀ i, i < numBucketsOf channelBits →
      0 ≤ buildIntervals expEdge (numBucketsOf channelBits) mode g i ∧
        buildIntervals expEdge (numBucketsOf channelBits) mode g i ≤ 255) ∧
    (∀ (g2 : IntTable) (i : Nat), i < numBucketsOf channelBits →
      buildIntervals expEdge (numBucketsOf channelBits) mode g i =
        buildIntervals expEdge (numBucketsOf channelBits) mode g2 i) := by
  unfold buildIntervals
  by_cases hu : mode = -1
  · simp only [if_pos hu]
    refine ⟨(uniformIntervals_props channelBits h8 g).1,
      (uniformIntervals_props channelBits h8 g).2, ?_⟩
    intro g2 i hi
    rw [uniformIntervals_apply _ h8, uniformIntervals_apply _ h8, if_pos hi, if_pos hi]
  · simp only [if_neg hu]
    have hm : 0 ≤ mode ∧ mode ≤ 255 := by
      rcases hmode with h | h
      · exact absurd h hu
      · exact h
    refine ⟨fun i hi => pivotIntervals_step _ _ _ _ (hE hu) hm.1 hm.2 i (by omega),
      (pivotIntervals_range _ _ _ _ (hE hu) (numBucketsOf_pos _) hm.1 hm.2).1, ?_⟩
    intro g2 i hi
    rw [pivotIntervals_apply, pivotIntervals_apply, if_pos (by omega), if_pos (by omega)]

/-- C3. Quantization is idempotent: for `channelBits` in `[1,8]`, `mode` in
`{-1} ∪ [0,255]` and every byte value `v`, `Q(Q(v)) = Q(v)` for the byte map `Q`
of the table built for these parameters; hence running the quantization stage
a second time with the same parameters (whatever the threshold array holds
before each run) leaves the raster of the first run unchanged.  The truncated
exponentials of the pivot-weighted policy enter through `expEdge`, of which only
`ExpEdgeOk` is used. -/
theorem quantization_idempotent (expEdge : Nat → Nat → Int) (channelBits : Nat) (mode : Int)
    (g g2 : IntTable) (h1 : 1 ≤ channelBits) (h8 : channelBits ≤ 8)
    (hmode : mode = -1 ∨ (0 ≤ mode ∧ mode ≤ 255))
    (hE : mode ≠ -1 →
      ExpEdgeOk (expEdge (numBucketsOf channelBits)) (numBucketsOf channelBits)) :
    (∀ v, quantizeByte expEdge channelBits mode g (quantizeByte expEdge channelBits mode g v) =
      quantizeByte expEdge channelBits mode g v) ∧
    (∀ (data : Buffer) (newWidth newHeight : Nat),
      quantizeStage expEdge
          (quantizeStage expEdge data newWidth newHeight channelBits mode g)
          newWidth newHeight channelBits mode g2 =
        quantizeStage expEdge data newWidth newHeight channelBits mode g) := by
  obtain ⟨hstep, hrange, hindep⟩ :=
    buildIntervals_props expEdge channelBits mode g h8 hmode hE
  have hq := quantizeValue_idem _ (numBucketsOf channelBits) (numBucketsOf_pos _) hstep hrange
  refine ⟨fun v => hq v, ?_⟩
  intro data W H
  unfold quantizeStage
  by_cases hc : channelBits ≠ 8
  · simp only [if_pos hc]
    rw [← quantizePass_congr _ _ _ (numBucketsOf_pos _) (hindep g2)]
    exact isIterated_idem _ _ (isIterated_quantizePass _ _ W H) hq data
  · simp only [if_neg hc]

/-- Witness of C3: two bits per channel, uniform policy. -/
theorem quantization_idempotent_witness :
    (∀ v, quantizeByte idealExpEdge 2 (-1) (fun _ => 0)
        (quantizeByte idealExpEdge 2 (-1) (fun _ => 0) v) =
      quantizeByte idealExpEdge 2 (-1) (fun _ => 0) v) ∧
    (∀ (data : Buffer) (newWidth newHeight : Nat),
      quantizeStage idealExpEdge
          (quantizeStage idealExpEdge data newWidth newHeight 2 (-1) (fun _ => 0))
          newWidth newHeight 2 (-1) (fun _ => 1) =
        quantizeStage idealExpEdge data newWidth newHeight 2 (-1) (fun _ => 0)) :=
  quantization_idempotent idealExpEdge 2 (-1) (fun _ => 0) (fun _ => 1) (by decide) (by decide)
    (Or.inl rfl) (fun _ => idealExpEdge_ok _)


/-! ## C11: `channelBits = 8` leaves the raster untouched -/

/-- C11. When `channelBits = 8`, for every mode and every resampled raster, the
quantization stage changes no byte: the raster after the stage is identical to
the raster before it (no table is built and no pass is run, whatever the
destination dimensions). -/
theorem quantizeStage_eight_bits (expEdge : Nat → Nat → Int) (resizedData : Buffer)
    (newWidth newHeight : Nat) (mode : Int) (intervals : IntTable) :
    quantizeStage expEdge resizedData newWidth newHeight 8 mode intervals = resizedData := by
  unfold quantizeStage
  rw [if_neg (by decide)]

/-! ## C13: the loader interleaves the three planes -/

/-- A read of `n` bytes on a good stream with at least `n` bytes left. -/
theorem InputFile.read_full (f : InputFile) (buf : Buffer) (n : Nat) (hgood : f.good = true)
    (hlen : f.pos + n ≤ f.bytes.length) :
    (f.read buf n).1 = { f with pos := f.pos + n } ∧
      ∀ i, i < n → (f.read buf n).2 i = f.bytes.getD (f.pos + i) 0 := by
  unfold InputFile.read
  rw [if_pos hgood, if_pos hlen]
  refine ⟨rfl, fun i hi => ?_⟩
  show (if i < n then f.bytes.getD (f.pos + i) 0 else buf i) = _
  rw [if_pos hi]

/-- The interleaving loop leaves at offset `3*i + c` the byte `i` of plane `c`. -/
theorem interleave_fold (Rbuf Gbuf Bbuf init : Buffer) (m i : Nat) (hi : i < m) :
    (List.range m).foldl (interleaveStep Rbuf Gbuf Bbuf) init (3 * i) = Rbuf i ∧
    (List.range m).foldl (interleaveStep Rbuf Gbuf Bbuf) init (3 * i + 1) = Gbuf i ∧
    (List.range m).foldl (interleaveStep Rbuf Gbuf Bbuf) init (3 * i + 2) = Bbuf i := by
  have key : ∀ (c v : Nat), c < 3 →
      (∀ b : Buffer, interleaveStep Rbuf Gbuf Bbuf b i (3 * i + c) = v) →
      (List.range m).foldl (interleaveStep Rbuf Gbuf Bbuf) init (3 * i + c) = v := by
    intro c v hc hv
    apply foldl_establish (fun b : Buffer => b (3 * i + c) = v)
    · intro y _ b hb
      by_cases hy : y = i
      · rw [hy]; exact hv b
      · unfold interleaveStep
        rw [Function.update_noteq (by omega), Function.update_noteq (by omega),
          Function.update_noteq (by omega)]
        exact hb
    · exact ⟨i, List.mem_range.2 hi, hv⟩
  refine ⟨key 0 _ (by decide) ?_, key 1 _ (by decide) ?_, key 2 _ (by decide) ?_⟩
  · intro b
    unfold interleaveStep
    rw [Function.update_noteq (by omega), Function.update_noteq (by omega)]
    exact Function.update_same _ _ _
  · intro b
    unfold interleaveStep
    rw [Function.update_noteq (by omega)]
    exact Function.update_same _ _ _
  · intro b
    unfold interleaveStep
    exact Function.update_same _ _ _

/-- C13. For a raw file of `W·H·3` bytes (planes R, G, B in that order, each
row-major), `readImageData` returns a buffer `out` with
`out[3·i + c] = raw[c·W·H + i]` for every pixel index `i` in `[0, W·H)` and
every channel `c` in `{0,1,2}`: the planar input is interleaved without
changing any value. -/
theorem readImageData_interleaves (raw : List Nat) (width height : Nat) (inData : Buffer)
    (hlen : raw.length = width * height * 3) :
    ∃ out, readImageData (some raw) width height inData = Except.ok out ∧
      ∀ i, i < width * height → ∀ c, c < 3 →
        out (3 * i + c) = raw.getD (c * width * height + i) 0 := by
  have hR := InputFile.read_full { bytes := raw, pos := 0, good := true } (fun _ => 0)
    (width * height) rfl (by show 0 + width * height ≤ raw.length; omega)
  obtain ⟨hR1, hR2⟩ := hR
  have hG := InputFile.read_full
    ((InputFile.read { bytes := raw, pos := 0, good := true } (fun _ => 0) (width * height)).1)
    (fun _ => 0) (width * height) (by rw [hR1])
    (by rw [hR1]; show 0 + width * height + width * height ≤ raw.length; omega)
  obtain ⟨hG1, hG2⟩ := hG
  have hB := InputFile.read_full
    ((InputFile.read
      ((InputFile.read { bytes := raw, pos := 0, good := true } (fun _ => 0)
        (width * height)).1) (fun _ => 0) (width * height)).1)
    (fun _ => 0) (width * height) (by rw [hG1, hR1])
    (by rw [hG1, hR1]
        show 0 + width * height + width * height + width * height ≤ raw.length
        omega)
  obtain ⟨_, hB2⟩ := hB
  refine ⟨_, rfl, ?_⟩
  intro i hi c hc
  have hi2 : i < height * width := by rw [Nat.mul_comm]; exact hi
  obtain ⟨f0, f1, f2⟩ := interleave_fold
    (InputFile.read { bytes := raw, pos := 0, good := true } (fun _ => 0) (width * height)).2
    (InputFile.read
      ((InputFile.read { bytes := raw, pos := 0, good := true } (fun _ => 0)
        (width * height)).1) (fun _ => 0) (width * height)).2
    (InputFile.read
      ((InputFile.read
        ((InputFile.read { bytes := raw, pos := 0, good := true } (fun _ => 0)
          (width * height)).1) (fun _ => 0) (width * height)).1)
      (fun _ => 0) (width * height)).2
    inData (height * width) i hi2
  have hc3 : c = 0 ∨ c = 1 ∨ c = 2 := by omega
  rcases hc3 with rfl | rfl | rfl
  · rw [Nat.add_zero, f0, hR2 i hi]
    simp
  · rw [f1, hG2 i hi, hR1]
    congr 1
    show 0 + width * height + i = 1 * width * height + i
    rw [Nat.one_mul, Nat.zero_add]
  · rw [f2, hB2 i hi, hG1, hR1]
    congr 1
    show 0 + width * height + width * height + i = 2 * width * height + i
    rw [Nat.zero_add, Nat.mul_assoc]
    omega

/-- Witness of C13: a 1x2 image with planes `R = [1,2]`, `G = [3,4]`, `B = [5,6]`
is returned as `1,3,5,2,4,6`. -/
theorem readImageData_interleaves_witness :
    ∃ out, readImageData (some [1, 2, 3, 4, 5, 6]) 2 1 (fun _ => 0) = Except.ok out ∧
      out 0 = 1 ∧ out 1 = 3 ∧ out 2 = 5 ∧ out 3 = 2 ∧ out 4 = 4 ∧ out 5 = 6 := by
  obtain ⟨out, h1, h2⟩ :=
    readImageData_interleaves [1, 2, 3, 4, 5, 6] 2 1 (fun _ => 0) (by decide)
  exact ⟨out, h1, h2 0 (by decide) 0 (by decide), h2 0 (by decide) 1 (by decide),
    h2 0 (by decide) 2 (by decide), h2 1 (by decide) 0 (by decide),
    h2 1 (by decide) 1 (by decide), h2 1 (by decide) 2 (by decide)⟩


/-! ## The resampling loop: last writer, unwritten pixels, coverage -/

/-- A counting loop in which step `x` establishes `P` and every later step keeps
`P` ends in a state with `P`. -/
theorem foldl_range_last {β : Type} (P : β → Prop) (s : β → Nat → β) (n x : Nat)
    (hx : x < n) (hest : ∀ b, P (s b x))
    (hpres : ∀ y, x < y → y < n → ∀ b, P b → P (s b y)) (b : β) :
    P ((List.range n).foldl s b) := by
  induction n with
  | zero => omega
  | succ n ih =>
    rw [List.range_succ, List.foldl_append]
    simp only [List.foldl_cons, List.foldl_nil]
    by_cases hxn : x = n
    · subst hxn
      exact hest _
    · exact hpres n (by omega) (by omega) _
        (ih (by omega) (fun y h1 h2 => hpres y h1 (by omega)))

/-- The byte left at a destination pixel is the one computed at the last source
pixel, in scan order, that is projected onto it. -/
theorem resampleLoop_last_writer (inData init : Buffer) (W H r c ch R C : Nat)
    (hc : c < W) (hch : ch < 3) (hR : R < 512) (hC : C < 512)
    (hRr : newRow H R = r) (hCc : newCol W C = c)
    (hRlast : ∀ y, R < y → y < 512 → newRow H y ≠ r)
    (hClast : ∀ y, C < y → y < 512 → newCol W y ≠ c) :
    resampleLoop inData W H init (r * W * 3 + c * 3 + ch) =
      kernelRGB inData (ORIGINAL_HEIGHT : Int) (ORIGINAL_WIDTH : Int) (R : Int) (C : Int) ch := by
  unfold resampleLoop
  apply foldl_range_last
    (fun b : Buffer => b (r * W * 3 + c * 3 + ch) =
      kernelRGB inData (ORIGINAL_HEIGHT : Int) (ORIGINAL_WIDTH : Int) (R : Int) (C : Int) ch)
    _ ORIGINAL_HEIGHT R hR
  · intro b
    apply foldl_range_last
      (fun b : Buffer => b (r * W * 3 + c * 3 + ch) =
        kernelRGB inData (ORIGINAL_HEIGHT : Int) (ORIGINAL_WIDTH : Int) (R : Int) (C : Int) ch)
      _ ORIGINAL_WIDTH C hC
    · intro b2
      rw [resampleStep_apply inData W H b2 R C r c ch hc hch hC, if_pos ⟨hRr, hCc⟩]
    · intro y h1 h2 b2 hb2
      rw [resampleStep_apply inData W H b2 R y r c ch hc hch h2,
        if_neg (fun h => hClast y h1 h2 h.2)]
      exact hb2
  · intro y h1 h2 b hb
    apply foldl_preserve
      (fun b : Buffer => b (r * W * 3 + c * 3 + ch) =
        kernelRGB inData (ORIGINAL_HEIGHT : Int) (ORIGINAL_WIDTH : Int) (R : Int) (C : Int) ch)
    · intro col hcol b2 hb2
      have hcol2 : col < 512 := by simpa [ORIGINAL_WIDTH] using hcol
      rw [resampleStep_apply inData W H b2 y col r c ch hc hch hcol2,
        if_neg (fun h => hRlast y h1 h2 h.1)]
      exact hb2
    · exact hb

/-- A destination pixel onto which no source pixel is projected keeps the bytes
the destination buffer held before the loop. -/
theorem resampleLoop_unwritten (inData init : Buffer) (W H r c ch : Nat)
    (hc : c < W) (hch : ch < 3)
    (hno : ∀ row, row < 512 → ∀ col, col < 512 → ¬ (newRow H row = r ∧ newCol W col = c)) :
    resampleLoop inData W H init (r * W * 3 + c * 3 + ch) = init (r * W * 3 + c * 3 + ch) := by
  unfold resampleLoop
  apply foldl_preserve
    (fun b : Buffer => b (r * W * 3 + c * 3 + ch) = init (r * W * 3 + c * 3 + ch))
  · intro row hrow b hb
    have hrow2 : row < 512 := by simpa [ORIGINAL_HEIGHT] using hrow
    apply foldl_preserve
      (fun b : Buffer => b (r * W * 3 + c * 3 + ch) = init (r * W * 3 + c * 3 + ch))
    · intro col hcol b2 hb2
      have hcol2 : col < 512 := by simpa [ORIGINAL_WIDTH] using hcol
      rw [resampleStep_apply inData W H b2 row col r c ch hc hch hcol2,
        if_neg (hno row hrow2 col hcol2)]
      exact hb2
    · exact hb
  · rfl

/-- When not upsampling along an axis, every destination index along it is the
projection of some source index. -/
theorem exists_source (n y : Nat) (hn : n ≤ 512) (hy : y < n) :
    ∃ x, x < 512 ∧ x * n / 512 = y := by
  have hnpos : 0 < n := by omega
  refine ⟨(y * 512 + n - 1) / n, ?_, ?_⟩
  · rw [Nat.div_lt_iff_lt_mul hnpos]
    have : y * 512 ≤ (n - 1) * 512 := Nat.mul_le_mul_right _ (by omega)
    have e : (n - 1) * 512 + 512 = 512 * n := by
      have : n - 1 + 1 = n := by omega
      calc (n - 1) * 512 + 512 = (n - 1 + 1) * 512 := by ring
        _ = 512 * n := by rw [this, Nat.mul_comm]
    omega
  · have h1 : (y * 512 + n - 1) / n * n ≤ y * 512 + n - 1 := Nat.div_mul_le_self _ _
    have h2 : y * 512 + n - 1 < n * ((y * 512 + n - 1) / n + 1) :=
      Nat.lt_mul_div_succ _ hnpos
    have h3 : n * ((y * 512 + n - 1) / n + 1) = (y * 512 + n - 1) / n * n + n := by ring
    apply Nat.div_eq_of_lt_le
    · omega
    · omega

/-- When not upsampling along an axis, every destination index along it has a
largest source index projected onto it. -/
theorem exists_largestSource (n y : Nat) (hn : n ≤ 512) (hy : y < n) :
    ∃ x, largestSource n y x := by
  obtain ⟨x0, hx0, hx0y⟩ := exists_source n y hn hy
  refine ⟨Nat.findGreatest (fun x => x * n / 512 = y) 511, ?_, ?_, ?_⟩
  · have := Nat.findGreatest_le (P := fun x => x * n / 512 = y) 511
    omega
  · exact Nat.findGreatest_spec (P := fun x => x * n / 512 = y) (by omega : x0 ≤ 511) hx0y
  · intro x2 hx2 hx2y
    exact Nat.le_findGreatest (by omega) hx2y

/-- A byte offset inside a `W x H x 3` raster is the offset of a channel of a
pixel. -/
theorem offset_decompose (W H j : Nat) (hj : j < W * H * 3) :
    ∃ r c ch, r < H ∧ c < W ∧ ch < 3 ∧ j = r * W * 3 + c * 3 + ch := by
  have hW : 0 < W := by
    rcases Nat.eq_zero_or_pos W with h | h
    · subst h; simp at hj
    · exact h
  refine ⟨j / (W * 3), j % (W * 3) / 3, j % (W * 3) % 3, ?_, ?_, Nat.mod_lt _ (by decide), ?_⟩
  · rw [Nat.div_lt_iff_lt_mul (by omega)]
    have : H * (W * 3) = W * H * 3 := by ring
    omega
  · rw [Nat.div_lt_iff_lt_mul (by decide)]
    exact Nat.mod_lt _ (by omega)
  · have h1 := Nat.div_add_mod j (W * 3)
    have h2 := Nat.div_add_mod (j % (W * 3)) 3
    have h3 : j / (W * 3) * W * 3 = W * 3 * (j / (W * 3)) := by ring
    omega


/-- The byte left at a destination pixel, in terms of the largest source row and
column projected onto it. -/
theorem resampleLoop_at_largest (inData init : Buffer) (W H r c ch R C : Nat)
    (hc : c < W) (hch : ch < 3) (hR : largestSource H r R) (hC : largestSource W c C) :
    resampleLoop inData W H init (r * W * 3 + c * 3 + ch) =
      kernelRGB inData (ORIGINAL_HEIGHT : Int) (ORIGINAL_WIDTH : Int) (R : Int) (C : Int) ch := by
  obtain ⟨hR1, hR2, hR3⟩ := hR
  obtain ⟨hC1, hC2, hC3⟩ := hC
  apply resampleLoop_last_writer inData init W H r c ch R C hc hch hR1 hC1
  · rw [newRow_eq]; exact hR2
  · rw [newCol_eq]; exact hC2
  · intro y h1 h2 h3
    rw [newRow_eq] at h3
    have := hR3 y h2 h3
    omega
  · intro y h1 h2 h3
    rw [newCol_eq] at h3
    have := hC3 y h2 h3
    omega

/-! ## C14: last writer wins when downsampling -/

/-- C14. For a destination size with `1 ≤ W1 ≤ 512` and `1 ≤ H1 ≤ 512` and every
destination pixel `(r, c)`: there are a largest source row `R` in `[0,512)` with
`floor(R·H1/512) = r` and a largest source column `C` in `[0,512)` with
`floor(C·W1/512) = c`, and the bytes left at `(r, c)` by the resampling loop are
those `CalculateKernel` computes on the source at `(R, C)`, the last source
pixel in raster-scan order projected onto `(r, c)`. -/
theorem resample_last_writer_wins (inData init out : Buffer) (outIndex W H r c : Nat)
    (hW1 : 1 ≤ W) (hW2 : W ≤ 512) (hH1 : 1 ≤ H) (hH2 : H ≤ 512) (hr : r < H) (hc : c < W) :
    (∃ R, largestSource H r R) ∧ (∃ C, largestSource W c C) ∧
    (∀ R C, largestSource H r R → largestSource W c C → ∀ ch, ch < 3 →
      resampleLoop inData W H init (r * W * 3 + c * 3 + ch) =
        CalculateKernel inData (ORIGINAL_HEIGHT : Int) (ORIGINAL_WIDTH : Int) (R : Int) (C : Int)
          out outIndex (outIndex + ch)) := by
  refine ⟨exists_largestSource H r hH2 hr, exists_largestSource W c hW2 hc, ?_⟩
  intro R C hR hC ch hch
  rw [CalculateKernel_apply_out _ _ _ _ _ _ _ _ hch]
  exact resampleLoop_at_largest inData init W H r c ch R C hc hch hR hC

/-- Witness of C14: halving the size, the destination pixel `(3, 4)` is left with
the kernel of the source pixel `(7, 9)`. -/
theorem resample_last_writer_wins_witness :
    resampleLoop (fun i => i % 251) 256 256 (fun _ => 9) (3 * 256 * 3 + 4 * 3 + 2) =
      CalculateKernel (fun i => i % 251) (ORIGINAL_HEIGHT : Int) (ORIGINAL_WIDTH : Int)
        ((7 : Nat) : Int) ((9 : Nat) : Int) (fun _ => 0) 0 (0 + 2) :=
  (resample_last_writer_wins (fun i => i % 251) (fun _ => 9) (fun _ => 0) 0 256 256 3 4
    (by decide) (by decide) (by decide) (by decide) (by decide) (by decide)).2.2 7 9
    ⟨by decide, by decide, fun x2 _ h => by omega⟩
    ⟨by decide, by decide, fun x2 _ h => by omega⟩ 2 (by decide)

/-! ## C16: full coverage when not upsampling -/

/-- C16. For a destination size with `1 ≤ W1 ≤ 512` and `1 ≤ H1 ≤ 512`, every
destination pixel `(r, c)` of `[0,H1) × [0,W1)` is written by the resampling
loop: some source pixel `(row, col)` of `[0,512)²` has `floor(row·H1/512) = r`
and `floor(col·W1/512) = c`; hence no byte of the resulting `W1×H1×3` raster
depends on what the destination buffer held before the loop. -/
theorem downsample_full_coverage (W H : Nat) (hW1 : 1 ≤ W) (hW2 : W ≤ 512) (hH1 : 1 ≤ H)
    (hH2 : H ≤ 512) :
    (∀ r, r < H → ∀ c, c < W →
      ∃ row, row < 512 ∧ ∃ col, col < 512 ∧ row * H / 512 = r ∧ col * W / 512 = c) ∧
    (∀ (inData init init2 : Buffer) (j : Nat), j < W * H * 3 →
      resampleLoop inData W H init j = resampleLoop inData W H init2 j) := by
  constructor
  · intro r hr c hc
    obtain ⟨row, h1, h2⟩ := exists_source H r hH2 hr
    obtain ⟨col, h3, h4⟩ := exists_source W c hW2 hc
    exact ⟨row, h1, col, h3, h2, h4⟩
  · intro inData init init2 j hj
    obtain ⟨r, c, ch, hr, hc, hch, rfl⟩ := offset_decompose W H j hj
    obtain ⟨R, hR⟩ := exists_largestSource H r hH2 hr
    obtain ⟨C, hC⟩ := exists_largestSource W c hW2 hc
    rw [resampleLoop_at_largest inData init W H r c ch R C hc hch hR hC,
      resampleLoop_at_largest inData init2 W H r c ch R C hc hch hR hC]

/-- Witness of C16: a 300x200 destination; the pixel `(199, 299)` is written by
the source pixel `(510, 511)`, and byte 5 does not depend on the buffer. -/
theorem downsample_full_coverage_witness :
    (∃ row, row < 512 ∧ ∃ col, col < 512 ∧ row * 200 / 512 = 199 ∧ col * 300 / 512 = 299) ∧
    resampleLoop (fun i => i % 251) 300 200 (fun _ => 0) 5 =
      resampleLoop (fun i => i % 251) 300 200 (fun _ => 1) 5 :=
  ⟨(downsample_full_coverage 300 200 (by decide) (by decide) (by decide) (by decide)).1
      199 (by decide) 299 (by decide),
   (downsample_full_coverage 300 200 (by decide) (by decide) (by decide) (by decide)).2
      (fun i => i % 251) (fun _ => 0) (fun _ => 1) 5 (by decide)⟩

/-! ## Gaps when upsampling, in unbounded arithmetic -/

/-- Along an axis that is upsampled, the last destination index is not the
projection of any source index. -/
theorem last_index_unmapped (n x : Nat) (hn : 512 < n) (hx : x < 512) :
    x * n / 512 ≠ n - 1 := by
  have h1 : x * n / 512 < n - 1 := by
    rw [Nat.div_lt_iff_lt_mul (by decide)]
    have : x * n ≤ 511 * n := Nat.mul_le_mul_right _ (by omega)
    omega
  omega

/-- The loop in unbounded arithmetic, for both dimensions at least 1 and one
above 512: some destination pixel is the projection of no source pixel, and
every such pixel keeps the bytes the buffer held before the loop. -/
theorem resampleLoop_leaves_gaps (W H : Nat) (hW : 1 ≤ W) (hH : 1 ≤ H)
    (hup : 512 < W ∨ 512 < H) :
    (∃ r c, r < H ∧ c < W ∧ unmapped W H r c) ∧
    (∀ (inData init : Buffer) (r c ch : Nat), r < H → c < W → ch < 3 → unmapped W H r c →
      resampleLoop inData W H init (r * W * 3 + c * 3 + ch) =
        init (r * W * 3 + c * 3 + ch)) := by
  constructor
  · rcases hup with h | h
    · refine ⟨0, W - 1, by omega, by omega, ?_⟩
      intro row _ col hcol hmap
      exact last_index_unmapped W col h hcol hmap.2
    · refine ⟨H - 1, 0, by omega, by omega, ?_⟩
      intro row hrow col _ hmap
      exact last_index_unmapped H row h hrow hmap.1
  · intro inData init r c ch _ hc hch hun
    apply resampleLoop_unwritten inData init W H r c ch hc hch
    intro row hrow col hcol hmap
    rw [newRow_eq, newCol_eq] at hmap
    exact hun row hrow col hcol hmap

/-! ## The unbounded loop beyond the raster -/

/-- A byte offset of a pixel of a `W x H` raster is below `W*H*3`. -/
theorem offset_lt (W H a b c : Nat) (ha : a < H) (hb : b < W) (hc : c < 3) :
    a * W * 3 + b * 3 + c < W * H * 3 := by
  have h1 : (a + 1) * W ≤ H * W := Nat.mul_le_mul_right _ (by omega)
  have h2 : (a + 1) * W = a * W + W := by ring
  have h3 : H * W = W * H := Nat.mul_comm _ _
  omega

/-- The loop in unbounded arithmetic changes no byte from offset `W*H*3` on. -/
theorem resampleLoop_beyond (inData init : Buffer) (W H j : Nat) (hW : 1 ≤ W) (hH : 1 ≤ H)
    (hj : W * H * 3 ≤ j) : resampleLoop inData W H init j = init j := by
  unfold resampleLoop
  apply foldl_preserve (fun b : Buffer => b j = init j)
  · intro row2 hrow2 b hb
    have hrow3 : row2 < 512 := by simpa [ORIGINAL_HEIGHT] using hrow2
    apply foldl_preserve (fun b : Buffer => b j = init j)
    · intro col2 hcol2 b2 hb2
      have hcol3 : col2 < 512 := by simpa [ORIGINAL_WIDTH] using hcol2
      have := offset_lt W H _ _ 2 (newRow_lt H row2 hH hrow3) (newCol_lt W col2 hW hcol3)
        (by decide)
      unfold resampleStep newIndex
      rw [CalculateKernel_apply_other _ _ _ _ _ _ _ _ (by omega)]
      exact hb2
    · exact hb
  · rfl

/-! ## The machine agrees with unbounded arithmetic below `2^31` -/

theorem wrapInt_eq (x : Int) (h0 : -2147483648 ≤ x) (h1 : x < 2147483648) : wrapInt x = x := by
  unfold wrapInt
  omega

/-- The scaled coordinate as an `int`. -/
theorem scaled_coord_int (x n : Nat) :
    truncToInt ((x : ℚ) * ((n : ℚ) / ((512 : Nat) : ℚ))) = ((x * n / 512 : Nat) : Int) := by
  have h0 : (0 : ℚ) ≤ (x : ℚ) * ((n : ℚ) / ((512 : Nat) : ℚ)) := by positivity
  have e : (x : ℚ) * ((n : ℚ) / ((512 : Nat) : ℚ)) = ((x * n : Nat) : ℚ) / ((512 : Nat) : ℚ) := by
    push_cast; ring
  rw [truncToInt_nonneg_eq_floor _ h0, e, Rat.floor_natCast_div_natCast]
  norm_cast

theorem newRowInt_eq (newHeight row : Nat) :
    newRowInt (newHeight : Int) row = ((row * newHeight / 512 : Nat) : Int) := by
  unfold newRowInt
  rw [Int.cast_natCast]
  exact scaled_coord_int row newHeight

theorem newColInt_eq (newWidth col : Nat) :
    newColInt (newWidth : Int) col = ((col * newWidth / 512 : Nat) : Int) := by
  unfold newColInt
  rw [Int.cast_natCast]
  exact scaled_coord_int col newWidth

/-- An `int` offset of a pixel of a `W x H` raster with `3*W*H < 2^31` is computed
without wrap-around. -/
theorem wrapped_offset (W H a b : Nat) (ha : a < H) (hb : b < W)
    (hbound : 3 * W * H < 2147483648) :
    wrapInt (wrapInt (wrapInt ((a : Int) * (W : Int)) * 3) + wrapInt ((b : Int) * 3)) =
      ((a * W * 3 + b * 3 : Nat) : Int) := by
  have hlt := offset_lt W H a b 2 ha hb (by decide)
  have h3 : 3 * W * H = W * H * 3 := by ring
  have hI : ((a : Int) * (W : Int)) * 3 + (b : Int) * 3 + 2 < 2147483648 := by
    have : a * W * 3 + b * 3 + 2 < 2147483648 := by omega
    exact_mod_cast this
  have hpos : (0 : Int) ≤ (a : Int) * (W : Int) := by positivity
  rw [wrapInt_eq ((a : Int) * (W : Int)) (by omega) (by omega),
    wrapInt_eq ((a : Int) * (W : Int) * 3) (by omega) (by omega),
    wrapInt_eq ((b : Int) * 3) (by omega) (by omega),
    wrapInt_eq _ (by omega) (by omega)]
  push_cast
  ring

/-- Below `2^31` the machine's `newIndex` is the unbounded one. -/
theorem newIndexInt_eq (W H row col : Nat) (hW : 1 ≤ W) (hH : 1 ≤ H)
    (hbound : 3 * W * H < 2147483648) (hrow : row < 512) (hcol : col < 512) :
    newIndexInt (W : Int) (H : Int) row col = ((newIndex W H row col : Nat) : Int) := by
  have hr := newRow_lt H row hH hrow
  have hc := newCol_lt W col hW hcol
  rw [newRow_eq] at hr
  rw [newCol_eq] at hc
  unfold newIndexInt newIndex
  rw [newRowInt_eq, newColInt_eq, newRow_eq, newCol_eq]
  exact wrapped_offset W H _ _ hr hc hbound

/-- Below `2^31` the argument of `malloc` is `W*H*3`. -/
theorem mallocRequest_eq (W H : Nat) (hbound : 3 * W * H < 2147483648) :
    mallocRequest (W : Int) (H : Int) = W * H * 3 := by
  have h3 : 3 * W * H = W * H * 3 := by ring
  have hI : ((W : Int) * (H : Int)) * 3 < 2147483648 := by
    have : W * H * 3 < 2147483648 := by omega
    exact_mod_cast this
  have hpos : (0 : Int) ≤ (W : Int) * (H : Int) := by positivity
  unfold mallocRequest toSizeT
  rw [wrapInt_eq ((W : Int) * (H : Int)) (by omega) (by omega),
    wrapInt_eq ((W : Int) * (H : Int) * 3) (by omega) (by omega)]
  have hmod : ((W : Int) * (H : Int) * 3) % 18446744073709551616 = (W : Int) * (H : Int) * 3 :=
    Int.emod_eq_of_lt (by omega) (by omega)
  rw [hmod]
  have : ((W : Int) * (H : Int) * 3) = ((W * H * 3 : Nat) : Int) := by push_cast; ring
  rw [this, Int.toNat_natCast]

/-- Below `2^31`, a `malloc` within the heap limit returns `W*H*3` bytes. -/
theorem allocSize_eq (P : Platform) (W H : Nat) (hbound : 3 * W * H < 2147483648)
    (hheap : 3 * W * H ≤ P.heapLimit) : allocSize P (W : Int) (H : Int) = W * H * 3 := by
  have h3 : 3 * W * H = W * H * 3 := by ring
  unfold allocSize
  rw [mallocRequest_eq W H hbound, if_pos ⟨by omega, by omega⟩]

/-- Below `2^31` every store of the resampling loop is inside the `W*H*3` bytes. -/
theorem storesInBounds_of_bound (W H : Nat) (hW : 1 ≤ W) (hH : 1 ≤ H)
    (hbound : 3 * W * H < 2147483648) :
    storesInBounds (W : Int) (H : Int) (W * H * 3) := by
  intro row hrow col hcol
  have hrow2 : row < 512 := hrow
  have hcol2 : col < 512 := hcol
  rw [newIndexInt_eq W H row col hW hH hbound hrow2 hcol2]
  have hlt := offset_lt W H _ _ 2 (newRow_lt H row hH hrow2) (newCol_lt W col hW hcol2)
    (by decide)
  have : newIndex W H row col + 2 < W * H * 3 := by
    unfold newIndex
    exact hlt
  constructor
  · exact Int.natCast_nonneg _
  · exact_mod_cast this

/-- Below `2^31` the machine's resampling loop is the unbounded one. -/
theorem resampleLoopInt_eq (inData init : Buffer) (W H : Nat) (hW : 1 ≤ W) (hH : 1 ≤ H)
    (hbound : 3 * W * H < 2147483648) :
    resampleLoopInt inData (W : Int) (H : Int) init = resampleLoop inData W H init := by
  unfold resampleLoopInt resampleLoop
  apply List.foldl_ext
  intro buf row hrow
  apply List.foldl_ext
  intro buf2 col hcol
  have hrow2 : row < 512 := by simpa [ORIGINAL_HEIGHT] using hrow
  have hcol2 : col < 512 := by simpa [ORIGINAL_WIDTH] using hcol
  unfold resampleStepInt resampleStep
  rw [newIndexInt_eq W H row col hW hH hbound hrow2 hcol2, Int.toNat_natCast]

/-- Below `2^31`, with a `malloc` within the heap limit, lines 171-185 run inside
the buffer and leave what the unbounded loop leaves. -/
theorem resampleRun_eq (P : Platform) (inData init : Buffer) (W H : Nat) (hW : 1 ≤ W)
    (hH : 1 ≤ H) (hbound : 3 * W * H < 2147483648) (hheap : 3 * W * H ≤ P.heapLimit) :
    resampleRun P inData (W : Int) (H : Int) init = some (resampleLoop inData W H init) := by
  unfold resampleRun
  rw [allocSize_eq P W H hbound hheap, if_pos (storesInBounds_of_bound W H hW hH hbound),
    resampleLoopInt_eq inData init W H hW hH hbound]

/-- A run whose `malloc` returned no byte has no defined result. -/
theorem resampleRun_none (P : Platform) (inData init : Buffer) (W H : Int)
    (h : allocSize P W H = 0) : resampleRun P inData W H init = none := by
  unfold resampleRun
  rw [h, if_neg]
  intro hin
  have := hin 0 (by decide) 0 (by decide)
  omega

/-- The 27136 x 27136 destination (scale 53): the `int` product `27136*27136*3`
wraps to a negative value, `malloc` is asked for more than `PTRDIFF_MAX` bytes
and returns the null pointer, on every machine. -/
theorem allocSize_27136 (P : Platform) : allocSize P 27136 27136 = 0 := by
  have h : mallocRequest 27136 27136 = 18446744071623671808 := by decide
  unfold allocSize
  rw [h, if_neg]
  intro hcon
  have := hcon.2
  omega


theorem doubleToInt_natCast (m : Nat) (h : m < 2147483648) :
    doubleToInt (m : ℚ) = (m : Int) := by
  unfold doubleToInt
  rw [truncToInt_natCast, if_pos ⟨by omega, by omega⟩]

/-- With a file that opens, a run whose resampling has no defined result has
none as a whole. -/
theorem MyFrame_undefined (P : Platform) (expEdge : Nat → Nat → Int) (bytes : List Nat)
    (W H channelBits mode : Int) (inData resizedData : Buffer) (g : IntTable)
    (h : ∀ image, resampleRun P image W H resizedData = none) :
    MyFrame P expEdge (some bytes) W H channelBits mode inData resizedData g =
      Outcome.undefined := by
  unfold MyFrame
  simp only [readImageData]
  split_ifs
  · rw [h]
  · rfl

/-- Scale 53 (a 27136 x 27136 destination): no machine completes the run. -/
theorem OnInit_scale_53 (P : Platform) (expEdge : Nat → Nat → Int) (bytes : List Nat)
    (channelBits mode : Int) (inData resizedData : Buffer) (g : IntTable) :
    OnInit P expEdge 5 (some bytes) 53 channelBits mode inData resizedData g =
      Outcome.undefined := by
  have hd : doubleToInt ((53 : ℚ) * 512) = 27136 := by
    have e : ((53 : ℚ) * 512) = ((27136 : Nat) : ℚ) := by norm_num
    rw [e, doubleToInt_natCast _ (by decide)]
    rfl
  unfold OnInit
  rw [if_neg (by decide)]
  simp only [hd]
  exact MyFrame_undefined P expEdge bytes _ _ _ _ _ _ _
    (fun image => resampleRun_none P image _ _ _ (allocSize_27136 P))

/-- Scale -1 (dimensions -512): the store for the source pixel `(0, 1)` goes to
offset -3, before the buffer, so no machine completes the run. -/
theorem OnInit_scale_neg (P : Platform) (expEdge : Nat → Nat → Int) (bytes : List Nat)
    (channelBits mode : Int) (inData resizedData : Buffer) (g : IntTable) :
    OnInit P expEdge 5 (some bytes) (-1) channelBits mode inData resizedData g =
      Outcome.undefined := by
  have ht : truncToInt ((-1 : ℚ) * 512) = -512 := by
    have e : ((-1 : ℚ) * 512) = ((-512 : Int) : ℚ) := by norm_num
    rw [e]
    simp [truncToInt]
  have hd : doubleToInt ((-1 : ℚ) * 512) = -512 := by
    unfold doubleToInt
    rw [ht, if_pos (by decide)]
  have hrow : newRowInt (-512) 0 = 0 := by
    simp [newRowInt, truncToInt]
  have hcol : newColInt (-512) 1 = -1 := by
    have e : ((1 : Nat) : ℚ) * ((((-512 : Int)) : ℚ) / ((ORIGINAL_WIDTH : Nat) : ℚ)) =
        ((-1 : Int) : ℚ) := by
      simp only [ORIGINAL_WIDTH]; norm_num
    unfold newColInt
    rw [e]
    simp [truncToInt]
  have hidx : newIndexInt (-512) (-512) 0 1 = -3 := by
    unfold newIndexInt
    rw [hrow, hcol]
    decide
  unfold OnInit
  rw [if_neg (by decide)]
  simp only [hd]
  apply MyFrame_undefined
  intro image
  unfold resampleRun
  rw [if_neg]
  intro hin
  have := (hin 0 (by decide) 1 (by decide)).1
  rw [hidx] at this
  exact absurd this (by decide)

/-- With `channelBits = 21` the array `intervals[2097153]` does not fit a stack of
at most `2^21` `int`s: such a machine does not complete the run. -/
theorem OnInit_bits_21 (P : Platform) (expEdge : Nat → Nat → Int) (bytes : List Nat)
    (scale : ℚ) (mode : Int) (inData resizedData : Buffer) (g : IntTable)
    (hstack : P.stackInts ≤ 2097152) :
    OnInit P expEdge 5 (some bytes) scale 21 mode inData resizedData g = Outcome.undefined := by
  have hq : ∀ (resized : Buffer) (size : Nat) (W H : Int),
      quantizeRun P expEdge resized size W H 21 mode g = Outcome.undefined := by
    intro resized size W H
    have hn : numBucketsInt 21 = some 2097152 := by decide
    unfold quantizeRun
    rw [hn]
    simp only []
    rw [if_pos (Or.inr (by omega))]
  unfold OnInit
  rw [if_neg (by decide)]
  unfold MyFrame
  simp only [readImageData]
  split_ifs
  · split
    · rfl
    · exact hq _ _ _ _
  · rfl

/-! ## C12: no validation of the parameters -/

/-- C6 (as amended). With `W1 = H1 = 512 * k` for an integer `k` with
`1 ≤ k ≤ 52` (so that `3·W1·H1 < 2^31`) and a machine whose `malloc` provides
the `3·W1·H1` bytes, the resampling loop runs inside the buffer and every
destination pixel `(r, c)` that it writes ends up holding, in each channel, the
byte that `CalculateKernel` computes on the source raster at
`(floor(r/k), floor(c/k))`. -/
theorem resample_integer_upscale (P : Platform) (inData init out : Buffer)
    (outIndex k r c ch : Nat) (hk : 1 ≤ k) (hk52 : k ≤ 52)
    (hheap : 3 * (512 * k) * (512 * k) ≤ P.heapLimit) (hch : ch < 3)
    (hw : writtenBy (512 * k) (512 * k) r c) :
    ∃ res, resampleRun P inData ((512 * k : Nat) : Int) ((512 * k : Nat) : Int) init = some res ∧
      res (r * (512 * k) * 3 + c * 3 + ch) =
        CalculateKernel inData (ORIGINAL_HEIGHT : Int) (ORIGINAL_WIDTH : Int)
          ((r / k : Nat) : Int) ((c / k : Nat) : Int) out outIndex (outIndex + ch) := by
  have hkk : k * k ≤ 52 * 52 := Nat.mul_le_mul hk52 hk52
  have e : 3 * (512 * k) * (512 * k) = 786432 * (k * k) := by ring
  have hbound : 3 * (512 * k) * (512 * k) < 2147483648 := by omega
  exact ⟨_, resampleRun_eq P inData init (512 * k) (512 * k) (by omega) (by omega) hbound hheap,
    resampleLoop_integer_upscale inData init out outIndex k r c ch hk hch hw⟩

/-- Witness of C6 as amended: factor 2 on the source `i % 251`, the destination
pixel `(6, 8)`, which the source pixel `(3, 4)` is projected onto. -/
theorem resample_integer_upscale_witness :
    ∃ res, resampleRun samplePlatform (fun i => i % 251) ((512 * 2 : Nat) : Int)
        ((512 * 2 : Nat) : Int) (fun _ => 9) = some res ∧
      res (6 * (512 * 2) * 3 + 8 * 3 + 1) =
        CalculateKernel (fun i => i % 251) (ORIGINAL_HEIGHT : Int) (ORIGINAL_WIDTH : Int)
          ((6 / 2 : Nat) : Int) ((8 / 2 : Nat) : Int) (fun _ => 0) 0 (0 + 1) :=
  resample_integer_upscale samplePlatform (fun i => i % 251) (fun _ => 9) (fun _ => 0) 0 2 6 8 1
    (by decide) (by decide) (by decide) (by decide)
    ⟨3, by decide, 4, by decide, by rw [newRow_eq], by rw [newCol_eq]⟩

/-- C6 fails as stated: at the integer factor `k = 53` (`W1 = H1 = 27136`) the
loop writes the destination pixel `(0, 0)`, but the `int` product
`27136*27136*3` wraps, `malloc` returns the null pointer and on no machine does
the loop leave a raster. -/
theorem resample_integer_upscale_counterexample :
    1 ≤ 53 ∧ writtenBy (512 * 53) (512 * 53) 0 0 ∧
    ¬ ∃ (P : Platform) (res : Buffer),
        resampleRun P (fun i => i % 251) ((512 * 53 : Nat) : Int) ((512 * 53 : Nat) : Int)
          (fun _ => 0) = some res := by
  refine ⟨by decide, ⟨0, by decide, 0, by decide, by rw [newRow_eq], by rw [newCol_eq]⟩, ?_⟩
  rintro ⟨P, res, h⟩
  have hnone := resampleRun_none P (fun i => i % 251) (fun _ => 0) 27136 27136
    (allocSize_27136 P)
  have e : ((512 * 53 : Nat) : Int) = 27136 := by decide
  rw [e, hnone] at h
  exact Option.noConfusion h

/-! ## C15: gaps when upsampling -/

/-- C15 (as amended). For a destination size with `W1 > 512` or `H1 > 512`, both
dimensions at least 1 and `3·W1·H1 < 2^31`, there is a destination pixel onto
which no source pixel `(row, col)` of `[0,512)²` is projected by
`(floor(row·H1/512), floor(col·W1/512))`; and on a machine whose `malloc`
provides the `3·W1·H1` bytes the resampling loop runs inside the buffer and
leaves in every such destination pixel exactly the bytes the destination
buffer held before the loop, whatever the source raster. -/
theorem upsample_leaves_gaps (P : Platform) (W H : Nat) (hW : 1 ≤ W) (hH : 1 ≤ H)
    (hup : 512 < W ∨ 512 < H) (hbound : 3 * W * H < 2147483648)
    (hheap : 3 * W * H ≤ P.heapLimit) :
    (∃ r c, r < H ∧ c < W ∧ unmapped W H r c) ∧
    (∀ (inData init : Buffer),
      ∃ res, resampleRun P inData (W : Int) (H : Int) init = some res ∧
        ∀ (r c ch : Nat), r < H → c < W → ch < 3 → unmapped W H r c →
          res (r * W * 3 + c * 3 + ch) = init (r * W * 3 + c * 3 + ch)) := by
  obtain ⟨h1, h2⟩ := resampleLoop_leaves_gaps W H hW hH hup
  refine ⟨h1, fun inData init => ⟨_, resampleRun_eq P inData init W H hW hH hbound hheap, ?_⟩⟩
  intro r c ch hr hc hch hun
  exact h2 inData init r c ch hr hc hch hun

/-- Witness of C15 as amended: doubling the size, the destination pixel `(1, 1)`
is not written and keeps the byte `9` of the destination buffer. -/
theorem upsample_leaves_gaps_witness :
    (∃ r c, r < 1024 ∧ c < 1024 ∧ unmapped 1024 1024 r c) ∧
    ∃ res, resampleRun samplePlatform (fun i => i % 251) ((1024 : Nat) : Int)
        ((1024 : Nat) : Int) (fun _ => 9) = some res ∧
      res (1 * 1024 * 3 + 1 * 3 + 0) = (fun _ => 9) (1 * 1024 * 3 + 1 * 3 + 0) := by
  obtain ⟨h1, h2⟩ := upsample_leaves_gaps samplePlatform 1024 1024 (by decide) (by decide)
    (Or.inl (by decide)) (by decide) (by decide)
  obtain ⟨res, hres, hkeep⟩ := h2 (fun i => i % 251) (fun _ => 9)
  exact ⟨h1, res, hres, hkeep 1 1 0 (by decide) (by decide) (by decide)
    (fun row _ col _ h => by omega)⟩

/-- C15 fails as stated: for the destination size 27136 x 27136 (above 512) the
`int` product `27136*27136*3` wraps, `malloc` returns the null pointer and on
no machine is there a buffer state after the loop. -/
theorem upsample_leaves_gaps_counterexample :
    (512 < 27136 ∨ 512 < 27136) ∧
    ¬ ∃ (P : Platform) (res : Buffer),
        resampleRun P (fun _ => 0) ((27136 : Nat) : Int) ((27136 : Nat) : Int) (fun _ => 7) =
          some res := by
  refine ⟨Or.inl (by decide), ?_⟩
  rintro ⟨P, res, h⟩
  have hnone := resampleRun_none P (fun _ => 0) (fun _ => 7) 27136 27136 (allocSize_27136 P)
  have e : ((27136 : Nat) : Int) = 27136 := by decide
  rw [e, hnone] at h
  exact Option.noConfusion h

/-! ## C17: the writes of the resampling loop stay inside the destination buffer -/

/-- C17 (as amended). For a destination size with `W1 ≥ 1`, `H1 ≥ 1` and
`3·W1·H1 < 2^31` and every source pixel `(row, col)` of `[0,512)²`, the
destination coordinate the machine computes is
`(floor(row·H1/512), floor(col·W1/512))` with `0 ≤ newRow < H1` and
`0 ≤ newCol < W1`, the `int newIndex` is `newRow·W1·3 + newCol·3` without
wrap-around, `malloc` is asked for `W1·H1·3` bytes, and each of the three byte
offsets `newIndex + c`, `c` in `{0,1,2}`, lies in `[0, W1·H1·3)`; on a machine
whose `malloc` provides these bytes the loop runs inside the buffer and changes
no byte from offset `W1·H1·3` on. -/
theorem resample_writes_in_bounds (W H row col : Nat) (hW : 1 ≤ W) (hH : 1 ≤ H)
    (hbound : 3 * W * H < 2147483648) (hrow : row < 512) (hcol : col < 512) :
    (0 ≤ newRowInt (H : Int) row ∧
      newRowInt (H : Int) row = ((row * H / 512 : Nat) : Int) ∧ row * H / 512 < H) ∧
    (0 ≤ newColInt (W : Int) col ∧
      newColInt (W : Int) col = ((col * W / 512 : Nat) : Int) ∧ col * W / 512 < W) ∧
    mallocRequest (W : Int) (H : Int) = W * H * 3 ∧
    (∀ c : Nat, c < 3 →
      newIndexInt (W : Int) (H : Int) row col =
        ((row * H / 512 * W * 3 + col * W / 512 * 3 : Nat) : Int) ∧
      0 ≤ newIndexInt (W : Int) (H : Int) row col + (c : Int) ∧
      newIndexInt (W : Int) (H : Int) row col + (c : Int) < ((W * H * 3 : Nat) : Int)) ∧
    (∀ (P : Platform) (inData init : Buffer), 3 * W * H ≤ P.heapLimit →
      ∃ res, resampleRun P inData (W : Int) (H : Int) init = some res ∧
        ∀ j, W * H * 3 ≤ j → res j = init j) := by
  have hr := newRow_lt H row hH hrow
  have hc := newCol_lt W col hW hcol
  rw [newRow_eq] at hr
  rw [newCol_eq] at hc
  have hidx := newIndexInt_eq W H row col hW hH hbound hrow hcol
  have hnew : newIndex W H row col = row * H / 512 * W * 3 + col * W / 512 * 3 := by
    unfold newIndex
    rw [newRow_eq, newCol_eq]
  refine ⟨⟨?_, newRowInt_eq H row, hr⟩, ⟨?_, newColInt_eq W col, hc⟩,
    mallocRequest_eq W H hbound, ?_, ?_⟩
  · rw [newRowInt_eq]; exact Int.natCast_nonneg _
  · rw [newColInt_eq]; exact Int.natCast_nonneg _
  · intro c hc3
    have hlt := offset_lt W H _ _ c hr hc hc3
    rw [hidx, hnew]
    refine ⟨rfl, by positivity, ?_⟩
    exact_mod_cast hlt
  · intro P inData init hheap
    exact ⟨_, resampleRun_eq P inData init W H hW hH hbound hheap,
      fun j hj => resampleLoop_beyond inData init W H j hW hH hj⟩

/-- Witness of C17 as amended: a 700x300 destination and the last source pixel
`(511, 511)`. -/
theorem resample_writes_in_bounds_witness :
    (0 ≤ newRowInt ((300 : Nat) : Int) 511 ∧
      newRowInt ((300 : Nat) : Int) 511 = ((511 * 300 / 512 : Nat) : Int) ∧
      511 * 300 / 512 < 300) ∧
    (0 ≤ newColInt ((700 : Nat) : Int) 511 ∧
      newColInt ((700 : Nat) : Int) 511 = ((511 * 700 / 512 : Nat) : Int) ∧
      511 * 700 / 512 < 700) ∧
    mallocRequest ((700 : Nat) : Int) ((300 : Nat) : Int) = 700 * 300 * 3 ∧
    (∀ c : Nat, c < 3 →
      newIndexInt ((700 : Nat) : Int) ((300 : Nat) : Int) 511 511 =
        ((511 * 300 / 512 * 700 * 3 + 511 * 700 / 512 * 3 : Nat) : Int) ∧
      0 ≤ newIndexInt ((700 : Nat) : Int) ((300 : Nat) : Int) 511 511 + (c : Int) ∧
      newIndexInt ((700 : Nat) : Int) ((300 : Nat) : Int) 511 511 + (c : Int) <
        ((700 * 300 * 3 : Nat) : Int)) ∧
    (∀ (P : Platform) (inData init : Buffer), 3 * 700 * 300 ≤ P.heapLimit →
      ∃ res, resampleRun P inData ((700 : Nat) : Int) ((300 : Nat) : Int) init = some res ∧
        ∀ j, 700 * 300 * 3 ≤ j → res j = init j) :=
  resample_writes_in_bounds 700 300 511 511 (by decide) (by decide) (by decide) (by decide)
    (by decide)

/-- C17 fails as stated: for the destination size 27136 x 27136 (both dimensions
at least 1) and the source pixel `(511, 511)` the coordinate `(27083, 27083)` is
in range, but the `int newIndex` wraps to `-2090113183`, which is not in
`[0, W1·H1·3)`, and the `int` argument of `malloc` wraps too, so that it is not
asked for `W1·H1·3` bytes. -/
theorem resample_writes_in_bounds_counterexample :
    1 ≤ 27136 ∧ 511 < 512 ∧ 511 * 27136 / 512 = 27083 ∧
    newIndexInt ((27136 : Nat) : Int) ((27136 : Nat) : Int) 511 511 = -2090113183 ∧
    ¬ (0 ≤ newIndexInt ((27136 : Nat) : Int) ((27136 : Nat) : Int) 511 511) ∧
    mallocRequest ((27136 : Nat) : Int) ((27136 : Nat) : Int) ≠ 27136 * 27136 * 3 := by
  have hidx : newIndexInt ((27136 : Nat) : Int) ((27136 : Nat) : Int) 511 511 = -2090113183 := by
    unfold newIndexInt
    rw [newRowInt_eq, newColInt_eq]
    decide
  refine ⟨by decide, by decide, by decide, hidx, ?_, by decide⟩
  rw [hidx]
  decide

end ImageDisplay
